import Mathlib

/-!
Verification development for the react-native-fn-forms form-state and
validation engine (src/hooks/useSmartForm.ts, src/validators.ts,
src/utils/formatters.ts).

Modelling conventions:
* A JavaScript string is modelled as a `List Nat` of UTF-16 code units
  (`JsStr`).  `S` converts a Lean string literal to that representation.
* Case conversion (`toUpperCase` / `toLowerCase`) is modelled for the
  ASCII range, which is the range the library's own patterns and docs
  target.
* JS objects used as string-keyed records (`values`, `errors`, `touched`,
  field bindings) are modelled as association lists with object-literal
  update semantics (`objSet` replaces in place, `objDel` removes).
* `undefined` reads of a missing `values` key behave exactly like the
  empty string in every branch of `validateField`, so `values` lookups
  default to the empty string.
-/

namespace FnForms

/-- A JavaScript string as a list of UTF-16 code units. -/
abbrev JsStr := List Nat

/-- Convert a Lean string literal to the code-unit model (BMP only). -/
def S (s : String) : JsStr := s.data.map Char.toNat

/-- Regex class `[0-9]`. -/
def isDigitN (n : Nat) : Bool := 48 ≤ n && n ≤ 57

/-- Regex class `[a-zA-Z]`. -/
def isAlphaN (n : Nat) : Bool := (65 ≤ n && n ≤ 90) || (97 ≤ n && n ≤ 122)

/-- JS `\s` restricted to the ASCII range: space, tab, LF, VT, FF, CR. -/
def isJsSpaceN (n : Nat) : Bool :=
  n == 32 || n == 9 || n == 10 || n == 11 || n == 12 || n == 13

/-- ASCII fragment of JS `String.prototype.toUpperCase`, per code unit. -/
def toUpperN (n : Nat) : Nat := if 97 ≤ n && n ≤ 122 then n - 32 else n

/-- ASCII fragment of JS `String.prototype.toLowerCase`, per code unit. -/
def toLowerN (n : Nat) : Nat := if 65 ≤ n && n ≤ 90 then n + 32 else n

/-- Drop the longest suffix whose elements satisfy `p`. -/
def dropRightWhile (p : Nat → Bool) : JsStr → JsStr
  | [] => []
  | c :: cs =>
    let r := dropRightWhile p cs
    if r.isEmpty && p c then [] else c :: r

/-- JS `String.prototype.trim` (ASCII whitespace fragment). -/
def jsTrim (l : JsStr) : JsStr := dropRightWhile isJsSpaceN (l.dropWhile isJsSpaceN)

theorem dropWhile_length_le (p : Nat → Bool) (l : JsStr) :
    (l.dropWhile p).length ≤ l.length := by
  induction l with
  | nil => simp
  | cons c cs ih =>
    simp only [List.dropWhile]
    split
    · exact Nat.le_succ_of_le ih
    · simp

/-- Worker for `replace(/\s+/g, " ")`: `prevSp` records whether the
    previous unit belonged to a whitespace run already emitted as one
    space, so each maximal whitespace run contributes exactly one 32. -/
def collapseAux (prevSp : Bool) : JsStr → JsStr
  | [] => []
  | c :: rest =>
    if isJsSpaceN c then
      if prevSp then collapseAux true rest else 32 :: collapseAux true rest
    else c :: collapseAux false rest

/-- JS `replace(/\s+/g, " ")`: each maximal whitespace run becomes one space. -/
def collapseWs (l : JsStr) : JsStr := collapseAux false l

/-- JS `replace(/^./, c => c.toUpperCase())`. -/
def capFirst : JsStr → JsStr
  | [] => []
  | c :: rest => toUpperN c :: rest

/-- JS `replace(/\s./g, c => c.toUpperCase())` with the non-overlapping
    non-overlapping global scan: a whitespace unit together with the unit
    after it is matched and uppercased (uppercasing whitespace is the
    identity), and scanning resumes after the match. -/
def capAfterWs : JsStr → JsStr
  | [] => []
  | [c] => [c]
  | c :: d :: rest =>
    if isJsSpaceN c then c :: toUpperN d :: capAfterWs rest
    else c :: capAfterWs (d :: rest)

/-- Regex `\w` = `[A-Za-z0-9_]`. -/
def isWordN (n : Nat) : Bool := isAlphaN n || isDigitN n || n == 95

/-- JS `replace(/\b\w/g, c => c.toUpperCase())`: uppercase each word unit
    whose predecessor in the original string is not a word unit.
    `prevWord` records whether the previous unit was a word unit. -/
def titleAux (prevWord : Bool) : JsStr → JsStr
  | [] => []
  | c :: rest =>
    (if !prevWord && isWordN c then toUpperN c else c) :: titleAux (isWordN c) rest

namespace formatters

/-- formatters.personName -/
def personName (value : JsStr) : JsStr :=
  capAfterWs (capFirst (collapseWs (jsTrim value)))

/-- formatters.businessName -/
def businessName (value : JsStr) : JsStr :=
  collapseWs (jsTrim value)

/-- formatters.email -/
def email (value : JsStr) : JsStr :=
  (jsTrim value).map toLowerN

/-- formatters.phone at the default national format (the only way
    the engine calls it, via `formatters.auto`): strip non-digits, then
    10 digits become `(XXX) XXX-XXXX`, 11 digits starting with `1` become
    `+1 (XXX) XXX-XXXX`, anything else returns the value untouched. -/
def phone (value : JsStr) : JsStr :=
  let cleaned := value.filter isDigitN
  if cleaned.length == 10 then
    S "(" ++ cleaned.take 3 ++ S ") " ++ (cleaned.drop 3).take 3 ++ S "-" ++ cleaned.drop 6
  else if cleaned.length == 11 && cleaned.headD 0 == 49 then
    S "+1 (" ++ (cleaned.drop 1).take 3 ++ S ") " ++ (cleaned.drop 4).take 3
      ++ S "-" ++ cleaned.drop 7
  else value

/-- JS `replace(/(.{4})/g, "$1 ")`: a space after every complete group of 4. -/
def group4 : JsStr → JsStr
  | a :: b :: c :: d :: rest => a :: b :: c :: d :: 32 :: group4 rest
  | l => l

/-- formatters.creditCard -/
def creditCard (value : JsStr) : JsStr :=
  jsTrim (group4 (value.filter isDigitN))

/-- Regex class `[0-9.]`, the units kept by the currency formatter. -/
def keepDigitDot (n : Nat) : Bool := isDigitN n || n == 46

/-- JS split at dots (code unit 46). -/
def splitDots : JsStr → List JsStr
  | [] => [[]]
  | c :: rest =>
    match splitDots rest with
    | [] => [[c]]
    | h :: t => if c == 46 then [] :: h :: t else (c :: h) :: t

/-- formatters.currency -/
def currency (value : JsStr) : JsStr :=
  let cleaned := value.filter keepDigitDot
  let parts := splitDots cleaned
  if 2 < parts.length then
    parts.headD [] ++ 46 :: (parts.drop 1).flatten
  else
    match parts with
    | [a, b] => if 2 < b.length then a ++ 46 :: b.take 2 else cleaned
    | _ => cleaned

/-- Regex class `[a-z0-9_-]`, the units the username formatter keeps (after lowering). -/
def isUserCharN (n : Nat) : Bool :=
  (97 ≤ n && n ≤ 122) || isDigitN n || n == 95 || n == 45

/-- Regex class `[_-]`. -/
def isUhN (n : Nat) : Bool := n == 95 || n == 45

/-- formatters.username -/
def username (value : JsStr) : JsStr :=
  dropRightWhile isUhN (((value.map toLowerN).filter isUserCharN).dropWhile isUhN)

/-- formatters.url -/
def url (value : JsStr) : JsStr :=
  let trimmed := (jsTrim value).map toLowerN
  if !trimmed.isEmpty && !(S "http://").isPrefixOf trimmed
      && !(S "https://").isPrefixOf trimmed then
    S "https://" ++ trimmed
  else trimmed

/-- formatters.streetAddress -/
def streetAddress (value : JsStr) : JsStr :=
  titleAux false (collapseWs (jsTrim value))

/-- formatters.text -/
def text (value : JsStr) : JsStr := jsTrim value

/-- formatters.number -/
def number (value : JsStr) : JsStr :=
  value.filter (fun n => isDigitN n || n == 46 || n == 45)

end formatters

/-- The closed set of field types (src/types.ts `FieldType`). -/
inductive FieldType where
  | text | email | phone | personName | businessName | streetAddress
  | creditCard | currency | password | username | url | date | number | otp
  deriving DecidableEq, Repr

/-- formatters.auto: dispatch on the field type; types with no formatter
    key (password, date, otp) fall back to `formatters.text`. -/
def formatters.auto (value : JsStr) (fieldType : FieldType) : JsStr :=
  match fieldType with
  | .text => formatters.text value
  | .email => formatters.email value
  | .phone => formatters.phone value
  | .personName => formatters.personName value
  | .businessName => formatters.businessName value
  | .streetAddress => formatters.streetAddress value
  | .creditCard => formatters.creditCard value
  | .currency => formatters.currency value
  | .username => formatters.username value
  | .url => formatters.url value
  | .number => formatters.number value
  | .password => formatters.text value
  | .date => formatters.text value
  | .otp => formatters.text value

/-! ## Validation patterns (src/validators.ts `PATTERNS`)

Each regular expression of the source is hand-translated to a decidable
predicate on code-unit lists; the source regex is quoted above each one. -/

/-- Email regex `/^[^\s@]+@[^\s@]+\.[^\s@]+$/`: since `@` is excluded from every
    character class, a match is exactly one `@` (64) with a nonempty
    whitespace-free part before it and, after it, a part containing a dot
    (46) that has at least one unit on each side. -/
def emailPat (l : JsStr) : Bool :=
  l.count 64 == 1 && l.all (fun c => !isJsSpaceN c) &&
    (let a := l.takeWhile (fun c => c != 64)
     let b := (l.dropWhile (fun c => c != 64)).drop 1
     !a.isEmpty && ((b.drop 1).dropLast.contains 46))

/-- Phone regex `/^[\+]?[1-9][\d]{0,15}$/`. -/
def phonePat (l : JsStr) : Bool :=
  match l with
  | [] => false
  | c :: rest =>
    let body := if c == 43 then rest else l
    match body with
    | [] => false
    | d :: ds => (49 ≤ d && d ≤ 57) && ds.length ≤ 15 && ds.all isDigitN

/-- Person-name regex: letters, whitespace, hyphen, apostrophe (unit 39), dot. -/
def personNamePat (l : JsStr) : Bool :=
  !l.isEmpty && l.all (fun c => isAlphaN c || isJsSpaceN c || c == 45 || c == 39 || c == 46)

/-- Business-name regex: the person-name class plus digits, ampersand, comma. -/
def businessNamePat (l : JsStr) : Bool :=
  !l.isEmpty && l.all (fun c =>
    isAlphaN c || isDigitN c || isJsSpaceN c || c == 45 || c == 39 || c == 46
      || c == 38 || c == 44)

/-- Street-address regex: letters, digits, whitespace, hyphen, apostrophe (39), dot, hash, comma. -/
def streetAddressPat (l : JsStr) : Bool :=
  !l.isEmpty && l.all (fun c =>
    isAlphaN c || isDigitN c || isJsSpaceN c || c == 45 || c == 39 || c == 46
      || c == 35 || c == 44)

/-- Credit-card regex `/^[0-9\s]+$/`. -/
def creditCardPat (l : JsStr) : Bool :=
  !l.isEmpty && l.all (fun c => isDigitN c || isJsSpaceN c)

/-- Currency regex `/^\d+(\.\d{1,2})?$/`. -/
def currencyPat (l : JsStr) : Bool :=
  let intPart := l.takeWhile isDigitN
  let rest := l.drop intPart.length
  !intPart.isEmpty &&
    (rest.isEmpty ||
      (rest.headD 0 == 46 && !(rest.drop 1).isEmpty && (rest.drop 1).length ≤ 2
        && (rest.drop 1).all isDigitN))

/-- Username regex `/^[a-zA-Z0-9_\-]+$/`. -/
def usernamePat (l : JsStr) : Bool :=
  !l.isEmpty && l.all (fun c => isAlphaN c || isDigitN c || c == 95 || c == 45)

/-- OTP regex `/^[0-9]+$/`. -/
def otpPat (l : JsStr) : Bool := !l.isEmpty && l.all isDigitN

/-- Host character class of the URL regex. -/
def urlHostChar (n : Nat) : Bool :=
  n == 45 || isAlphaN n || isDigitN n || n == 64 || n == 58 || n == 37 || n == 46
    || n == 95 || n == 43 || n == 126 || n == 35 || n == 61

/-- TLD character class `[a-zA-Z0-9()]`. -/
def urlTldChar (n : Nat) : Bool := isAlphaN n || isDigitN n || n == 40 || n == 41

/-- Trailing-part character class of the URL regex. -/
def urlRestChar (n : Nat) : Bool :=
  n == 45 || isAlphaN n || isDigitN n || n == 40 || n == 41 || n == 64 || n == 58
    || n == 37 || n == 95 || n == 43 || n == 46 || n == 126 || n == 35 || n == 63
    || n == 38 || n == 47 || n == 61

/-- Word boundary `\b` between an existing left unit and an optional right unit. -/
def wordBoundaryAfter (left : Nat) (right : Option Nat) : Bool :=
  isWordN left != (match right with | some c => isWordN c | none => false)

/-- URL regex `/^https?:\/\/(www\.)?[-a-zA-Z0-9@:%._\+~#=]{1,256}\.[a-zA-Z0-9()]{1,6}\b([-a-zA-Z0-9()@:%_\+.~#?&//=]*)$/`
    translated as a bounded search over the backtracking split points
    (host length 1..256, TLD length 1..6, optional `www.`). -/
def urlPat (l : JsStr) : Bool :=
  let afterScheme :=
    if (S "https://").isPrefixOf l then some (l.drop 8)
    else if (S "http://").isPrefixOf l then some (l.drop 7)
    else none
  match afterScheme with
  | none => false
  | some t =>
    let cands := if (S "www.").isPrefixOf t then [t.drop 4, t] else [t]
    cands.any fun body =>
      (List.range (min body.length 256)).any fun hm1 =>
        let h := hm1 + 1
        (body.take h).all urlHostChar && h < body.length && body.getD h 0 == 46 &&
          (List.range 6).any fun km1 =>
            let k := km1 + 1
            let tld := (body.drop (h + 1)).take k
            let rest := body.drop (h + 1 + k)
            tld.length == k && tld.all urlTldChar &&
              wordBoundaryAfter (tld.getD (k - 1) 0) rest.head? &&
              rest.all urlRestChar

/-- Lookup `PATTERNS[fieldType]`: types without an entry give `undefined`. -/
def patternFor : FieldType → Option (JsStr → Bool)
  | .email => some emailPat
  | .phone => some phonePat
  | .personName => some personNamePat
  | .businessName => some businessNamePat
  | .streetAddress => some streetAddressPat
  | .creditCard => some creditCardPat
  | .currency => some currencyPat
  | .username => some usernamePat
  | .url => some urlPat
  | .otp => some otpPat
  | _ => none

/-- Lookup `ERROR_MESSAGES.pattern[fieldType]` with fallback "Invalid format". -/
def patternMessageFor : FieldType → String
  | .email => "Please enter a valid email address"
  | .phone => "Please enter a valid phone number"
  | .personName => "Names can only contain letters, spaces, hyphens, and apostrophes"
  | .businessName => "Business names can contain letters, numbers, and common punctuation"
  | .streetAddress => "Please enter a valid street address"
  | .creditCard => "Credit card numbers can only contain digits and spaces"
  | .currency => "Please enter a valid amount (e.g., 10.99)"
  | .username => "Username can only contain letters, numbers, underscores, and hyphens"
  | .url => "Please enter a valid URL starting with http:// or https://"
  | .otp => "OTP can only contain numbers"
  | _ => "Invalid format"

/-! ## Validators (src/validators.ts `validators`, `luhnCheck`)

Each validator of the source returns a `ValidationRule` object or `null`;
`validateField` only ever uses the `message` field, so the validators are
modelled as returning `Option String` of that message. -/

namespace validators

/-- validators.required: empty means null/undefined/empty/whitespace-only;
    for the string values of this model that is exactly `trim = ''`. -/
def required (value : JsStr) : Option String :=
  if (jsTrim value).isEmpty then some "This field is required" else none

/-- validators.minLength: fails when `value && value.length < min`. -/
def minLength (min : Nat) (value : JsStr) : Option String :=
  if !value.isEmpty && value.length < min then
    some s!"Must be at least {min} characters long"
  else none

/-- validators.maxLength: fails when `value && value.length > max`. -/
def maxLength (max : Nat) (value : JsStr) : Option String :=
  if !value.isEmpty && max < value.length then
    some s!"Must not exceed {max} characters"
  else none

/-- validators.pattern: `null` for an empty value or a type with no
    pattern; otherwise tests the type's default pattern. -/
def pattern (fieldType : FieldType) (value : JsStr) : Option String :=
  if value.isEmpty then none
  else
    match patternFor fieldType with
    | none => none
    | some p => if p value then none else some (patternMessageFor fieldType)

/-- Luhn doubling of one digit: double, subtract 9 above 9. -/
def luhnDouble (d : Nat) : Nat := if 9 < 2 * d then 2 * d - 9 else 2 * d

/-- Sum of the Luhn loop over the already-reversed digit list; the flag
    says whether the current index `i` has `i % 2 == 1`. -/
def luhnAux (flag : Bool) : List Nat → Nat
  | [] => 0
  | d :: ds => (if flag then luhnDouble d else d) + luhnAux (!flag) ds

/-- luhnCheck: strips whitespace, reverses, sums with doubling at odd
    indices, and accepts iff the sum is a multiple of 10.  `parseInt` of a
    non-digit unit is NaN, which poisons the sum and makes the final
    comparison false, hence the all-digits guard. -/
def luhnCheck (cardNumber : JsStr) : Bool :=
  let digits := (cardNumber.filter (fun c => !isJsSpaceN c)).reverse
  if digits.all isDigitN then luhnAux false (digits.map (· - 48)) % 10 == 0
  else false

/-- validators.creditCardLuhn -/
def creditCardLuhn (value : JsStr) : Option String :=
  if value.isEmpty then none
  else
    let cleanValue := value.filter (fun c => !isJsSpaceN c)
    if cleanValue.length < 13 || 19 < cleanValue.length then
      some "Credit card number must be between 13 and 19 digits"
    else if luhnCheck cleanValue then none
    else some "Please enter a valid credit card number"

end validators

/-! ## Engine data model (src/types.ts, src/hooks/useSmartForm.ts) -/

/-- One member of the consumer-facing field binding object.  Engine-made
    members carry their payload; closures are represented by which field
    they are bound to; `ext` stands for opaque caller-supplied values. -/
inductive PropVal where
  | str (s : JsStr)
  | optStr (o : Option String)
  | boolV (b : Bool)
  | changeHandler (field : String)
  | blurHandler (field : String)
  | ext (n : Nat)
  deriving DecidableEq, Repr

/-- src/types.ts `FieldConfig` (the members the engine reads). -/
structure FieldConfig where
  type : FieldType
  required : Bool := false
  minLength : Option Nat := none
  maxLength : Option Nat := none
  /-- Declared in src/types.ts; the engine never reads it. -/
  pattern : Option (JsStr → Bool) := none
  customValidation : Option (JsStr → Option String) := none
  transform : Option (JsStr → JsStr) := none
  format : Option (JsStr → JsStr) := none
  debounce : Option Nat := none
  matchField : Option String := none
  matchErrorMessage : Option String := none
  inputProps : List (String × PropVal) := []

/-- Values of `validation.mode`. -/
inductive ValidationMode where
  | onChange | onBlur | onSubmit
  deriving DecidableEq, Repr

/-- Values of `validation.showErrorsOn`. -/
inductive ShowErrorsOn where
  | immediate | touched | submit
  deriving DecidableEq, Repr

/-- The merged form configuration (defaults already applied). -/
structure FormConfig where
  fields : List (String × FieldConfig)
  mode : ValidationMode := .onChange
  debounce : Nat := 300
  showErrorsOn : ShowErrorsOn := .touched

/-- JS object-literal update `{...obj, [k]: v}`: replace in place if the
    key exists, else append. -/
def objSet {β : Type} (l : List (String × β)) (k : String) (v : β) : List (String × β) :=
  if l.any (fun p => p.1 == k) then l.map (fun p => cond (p.1 == k) (k, v) p)
  else l ++ [(k, v)]

/-- JS `delete obj[k]`. -/
def objDel {β : Type} (l : List (String × β)) (k : String) : List (String × β) :=
  l.filter (fun p => p.1 != k)

/-- JS truthiness of a possibly-missing string. -/
def strTruthy : Option String → Bool
  | some s => s != ""
  | none => false

abbrev ValMap := List (String × JsStr)

/-- The render-time snapshot of the hook state: `values`, `errors`,
    `touched` as seen by the closures of one render. -/
structure EngineState where
  values : ValMap
  errors : List (String × String)
  touched : List (String × Bool)
  deriving DecidableEq, Repr

/-- Line 42: `Object.keys(errors).length === 0 && Object.keys(touched).length > 0`. -/
def isValid (errors : List (String × String)) (touched : List (String × Bool)) : Bool :=
  errors.length == 0 && decide (0 < touched.length)

/-- The `useState` initializers: every declared field mapped to the empty
    string, empty error and touched maps. -/
def initState (fields : List (String × FieldConfig)) : EngineState :=
  { values := fields.map (fun p => (p.1, ([] : JsStr))), errors := [], touched := [] }

/-- The custom-validation tail of `validateField`: `customError` is
    returned only when truthy (a non-empty string). -/
def customStage (cfg : FieldConfig) (value : JsStr) : Option String :=
  match cfg.customValidation with
  | some f =>
    match f value with
    | some e => if e != "" then some e else none
    | none => none
  | none => none

/-- Fallback chain `fieldConfig.matchErrorMessage` or the default message
    built from the matched field name (JS or-truthiness). -/
def matchMessage (override : Option String) (mf : String) : String :=
  match override with
  | some s => if s != "" then s else "Must match " ++ mf
  | none => "Must match " ++ mf

/-- Function `validateField` (useSmartForm.ts lines 45-113), translated with each
    early `return` becoming a match on the stage's result.  A missing
    `values` entry (`undefined`) behaves like the empty string in every
    branch, so the lookup defaults to `[]`. -/
def validateField (fields : List (String × FieldConfig)) (values : ValMap)
    (fieldName : String) : Option String :=
  match fields.lookup fieldName with
  | none => none
  | some cfg =>
    let value := (values.lookup fieldName).getD []
    match (if cfg.required then validators.required value else none) with
    | some m => some m
    | none =>
      if value.isEmpty && !cfg.required then none
      else
        match (match cfg.minLength with
               | some min => if min != 0 then validators.minLength min value else none
               | none => none) with
        | some m => some m
        | none =>
          match (match cfg.maxLength with
                 | some max => if max != 0 then validators.maxLength max value else none
                 | none => none) with
          | some m => some m
          | none =>
            match validators.pattern cfg.type value with
            | some m => some m
            | none =>
              match (if cfg.type == FieldType.creditCard then
                       validators.creditCardLuhn value
                     else none) with
              | some m => some m
              | none =>
                match cfg.matchField with
                | some mf =>
                  if mf != "" && value != (values.lookup mf).getD [] then
                    some (matchMessage cfg.matchErrorMessage mf)
                  else customStage cfg value
                | none => customStage cfg value

/-- Function `setFieldValue` (lines 130-197) observed at the end of the handler's
    microtask queue and before any debounce timer fires.  The closures of
    the render snapshot read `snap`; the queued functional updates apply
    in order: the value write, the eager error clear, then the
    match-cascade writes in field-declaration order (the `forEach` async
    callbacks resolve in order).  The cascade's `validateField` reads the
    render snapshot's `values` — not the value just written.  The debounce
    timer scheduled at the end has not fired at observation. -/
def setFieldValue (cfg : FormConfig) (snap : EngineState) (fieldName : String)
    (value : JsStr) : EngineState :=
  let fieldConfig := cfg.fields.lookup fieldName
  let processedValue :=
    match fieldConfig with
    | some fc =>
      match fc.format with
      | some f => f value
      | none =>
        match fc.transform with
        | some t => t value
        | none => formatters.auto value fc.type
    | none => formatters.auto value FieldType.text
  let values1 := objSet snap.values fieldName processedValue
  let errors1 :=
    if strTruthy (snap.errors.lookup fieldName) then objDel snap.errors fieldName
    else snap.errors
  let errors2 := cfg.fields.foldl
    (fun acc other =>
      if other.2.matchField == some fieldName
          && (snap.touched.lookup other.1).getD false then
        match validateField cfg.fields snap.values other.1 with
        | some e => objSet acc other.1 e
        | none => objDel acc other.1
      else acc)
    errors1
  { values := values1, errors := errors2, touched := snap.touched }

/-- Function `getFieldProps` (lines 263-277): the binding object literal with the
    field's `inputProps` spread last. -/
def getFieldProps (cfg : FormConfig) (st : EngineState) (fieldName : String) :
    List (String × PropVal) :=
  let fieldConfig := cfg.fields.lookup fieldName
  let base : List (String × PropVal) :=
    [("value", PropVal.str ((st.values.lookup fieldName).getD [])),
     ("onChangeText", PropVal.changeHandler fieldName),
     ("onBlur", PropVal.blurHandler fieldName),
     ("error", PropVal.optStr
        (if (st.touched.lookup fieldName).getD false then st.errors.lookup fieldName
         else none)),
     ("touched", PropVal.boolV ((st.touched.lookup fieldName).getD false))]
  let props := match fieldConfig with
    | some fc => fc.inputProps
    | none => []
  props.foldl (fun acc kv => objSet acc kv.1 kv.2) base

/-- The `error` member of the binding, as the claims discuss it. -/
def bindingError (cfg : FormConfig) (st : EngineState) (fieldName : String) :
    Option PropVal :=
  (getFieldProps cfg st fieldName).lookup "error"

/-- src/types.ts `DraftData`. -/
structure DraftData where
  values : ValMap
  touched : List (String × Bool)
  timestamp : Int
  deriving DecidableEq, Repr

/-- JS truthiness of `config.autoSave?.expirationDays`. -/
def truthyNat : Option Nat → Bool
  | some n => n != 0
  | none => false

/-- Function `loadDraft` (lines 325-346) as a state transformer; the Bool output
    records whether `clearDraft()` was invoked (`clearDraft` only touches
    the storage adapter, never `values`/`touched`).  `setDraftLoaded` is
    omitted: no claim observes the draft-loaded flag. -/
def loadDraft (expirationDays : Option Nat) (now : Int) (draft : Option DraftData)
    (st : EngineState) : EngineState × Bool :=
  match draft with
  | none => (st, false)
  | some draftData =>
    if truthyNat expirationDays then
      let expirationMs : Int := (expirationDays.getD 0 : Nat) * 24 * 60 * 60 * 1000
      if expirationMs < now - draftData.timestamp then (st, true)
      else ({ st with values := draftData.values, touched := draftData.touched }, false)
    else ({ st with values := draftData.values, touched := draftData.touched }, false)

/-! ## The seven-stage pipeline of spec §4.2

A stage yields `none` to pass control on, `some r` to stop the pipeline
with final result `r` (`r = none` is the optional-empty early success). -/

/-- Stage 1: required. -/
def stageRequired (cfg : FieldConfig) (value : JsStr) : Option (Option String) :=
  if cfg.required then
    match validators.required value with
    | some m => some (some m)
    | none => none
  else none

/-- Stage 2: early exit for an empty optional value. -/
def stageOptionalEmpty (cfg : FieldConfig) (value : JsStr) : Option (Option String) :=
  if value.isEmpty && !cfg.required then some none else none

/-- Stage 3: minLength. -/
def stageMinLength (cfg : FieldConfig) (value : JsStr) : Option (Option String) :=
  match cfg.minLength with
  | some min =>
    if min != 0 then
      match validators.minLength min value with
      | some m => some (some m)
      | none => none
    else none
  | none => none

/-- Stage 4: maxLength. -/
def stageMaxLength (cfg : FieldConfig) (value : JsStr) : Option (Option String) :=
  match cfg.maxLength with
  | some max =>
    if max != 0 then
      match validators.maxLength max value with
      | some m => some (some m)
      | none => none
    else none
  | none => none

/-- Stage 5: the type's default pattern. -/
def stagePattern (cfg : FieldConfig) (value : JsStr) : Option (Option String) :=
  match validators.pattern cfg.type value with
  | some m => some (some m)
  | none => none

/-- Stage 6: the credit-card Luhn/length check. -/
def stageLuhn (cfg : FieldConfig) (value : JsStr) : Option (Option String) :=
  if cfg.type == FieldType.creditCard then
    match validators.creditCardLuhn value with
    | some m => some (some m)
    | none => none
  else none

/-- Stage 7: cross-field match. -/
def stageMatch (values : ValMap) (cfg : FieldConfig) (value : JsStr) :
    Option (Option String) :=
  match cfg.matchField with
  | some mf =>
    if mf != "" && value != (values.lookup mf).getD [] then
      some (some (matchMessage cfg.matchErrorMessage mf))
    else none
  | none => none

/-- Stage 8: custom validation. -/
def stageCustom (cfg : FieldConfig) (value : JsStr) : Option (Option String) :=
  match customStage cfg value with
  | some m => some (some m)
  | none => none

/-- Run stages in order: the first stage that yields a result decides;
    all later stages are skipped; if no stage decides the field is valid. -/
def runStages : List (Option (Option String)) → Option String
  | [] => none
  | none :: rest => runStages rest
  | some r :: _ => r

/-- The pipeline exactly as spec §4.2 orders it. -/
def stagedValidate (fields : List (String × FieldConfig)) (values : ValMap)
    (fieldName : String) : Option String :=
  match fields.lookup fieldName with
  | none => none
  | some cfg =>
    let value := (values.lookup fieldName).getD []
    runStages
      [stageRequired cfg value, stageOptionalEmpty cfg value,
       stageMinLength cfg value, stageMaxLength cfg value,
       stagePattern cfg value, stageLuhn cfg value,
       stageMatch values cfg value, stageCustom cfg value]

theorem option_match_eq_map (x : Option String) :
    (match x with
     | some m => some (some m)
     | none => (none : Option (Option String))) = x.map some := by
  cases x <;> rfl

theorem runStages_cons_map (e : Option String) (rest : List (Option (Option String))) :
    runStages (e.map some :: rest) =
      (match e with
       | some m => some m
       | none => runStages rest) := by
  cases e <;> rfl

theorem stageRequired_eq (cfg : FieldConfig) (v : JsStr) :
    stageRequired cfg v = (if cfg.required then validators.required v else none).map some := by
  unfold stageRequired
  cases cfg.required <;> simp [option_match_eq_map]

theorem stageMinLength_eq (cfg : FieldConfig) (v : JsStr) :
    stageMinLength cfg v =
      (match cfg.minLength with
       | some min => if min != 0 then validators.minLength min v else none
       | none => none).map some := by
  unfold stageMinLength
  cases cfg.minLength with
  | none => rfl
  | some min =>
    by_cases h : min != 0 <;> simp [h, option_match_eq_map]

theorem stageMaxLength_eq (cfg : FieldConfig) (v : JsStr) :
    stageMaxLength cfg v =
      (match cfg.maxLength with
       | some max => if max != 0 then validators.maxLength max v else none
       | none => none).map some := by
  unfold stageMaxLength
  cases cfg.maxLength with
  | none => rfl
  | some max =>
    by_cases h : max != 0 <;> simp [h, option_match_eq_map]

theorem stagePattern_eq (cfg : FieldConfig) (v : JsStr) :
    stagePattern cfg v = (validators.pattern cfg.type v).map some := by
  unfold stagePattern
  exact option_match_eq_map _

theorem stageLuhn_eq (cfg : FieldConfig) (v : JsStr) :
    stageLuhn cfg v =
      (if cfg.type == FieldType.creditCard then validators.creditCardLuhn v
       else none).map some := by
  unfold stageLuhn
  by_cases h : cfg.type == FieldType.creditCard <;> simp [h, option_match_eq_map]

theorem runStages_optionalEmpty (cfg : FieldConfig) (v : JsStr)
    (rest : List (Option (Option String))) :
    runStages (stageOptionalEmpty cfg v :: rest) =
      if v.isEmpty && !cfg.required then none else runStages rest := by
  unfold stageOptionalEmpty
  by_cases h : (v.isEmpty && !cfg.required) = true <;> simp [h, runStages]

theorem runStages_match_custom (values : ValMap) (cfg : FieldConfig) (v : JsStr) :
    runStages [stageMatch values cfg v, stageCustom cfg v] =
      (match cfg.matchField with
       | some mf =>
         if mf != "" && v != (values.lookup mf).getD [] then
           some (matchMessage cfg.matchErrorMessage mf)
         else customStage cfg v
       | none => customStage cfg v) := by
  unfold stageMatch stageCustom
  cases cfg.matchField with
  | none => cases customStage cfg v <;> rfl
  | some mf =>
    by_cases h : (mf != "" && v != (values.lookup mf).getD []) = true
    · simp [h, runStages]
    · simp only [h, if_false]
      cases customStage cfg v <;> simp [runStages]

/-- C1: For every field configuration and current value map,
`validateField` applies its checks in the fixed order required → early
exit for an empty optional value → minLength → maxLength → pattern →
credit-card Luhn → cross-field match → custom validation: it coincides
with running the eight stages in that order, where the first stage that
decides yields the final result and all later stages (in particular the
custom-validation stage, reached only when stages 1-7 pass) are skipped. -/
theorem validateField_follows_staged_pipeline
    (fields : List (String × FieldConfig)) (values : ValMap) (fieldName : String) :
    validateField fields values fieldName = stagedValidate fields values fieldName := by
  unfold validateField stagedValidate
  cases fields.lookup fieldName with
  | none => rfl
  | some cfg =>
    simp only [stageRequired_eq, stageMinLength_eq, stageMaxLength_eq, stagePattern_eq,
      stageLuhn_eq, runStages_cons_map, runStages_optionalEmpty, runStages_match_custom]

/-! ## C3: the derived `isValid` flag -/

/-- C3: In every state, `isValid` is true iff the error map is empty
and at least one field has been touched; in particular the freshly
constructed state (all values empty, nothing touched, no errors) reports
`isValid = false` for every field list. -/
theorem isValid_iff_empty_errors_and_touched :
    (∀ (errors : List (String × String)) (touched : List (String × Bool)),
        isValid errors touched = true ↔ errors = [] ∧ touched ≠ []) ∧
    (∀ fields : List (String × FieldConfig),
        isValid (initState fields).errors (initState fields).touched = false) := by
  constructor
  · intro errors touched
    simp [isValid, List.length_eq_zero, List.length_pos]
  · intro fields
    rfl

/-! ## C2: the match-cascade of `setFieldValue`

Spec scenario: `password` was `"Secret123"`, `confirmPassword` equals it
and is touched; the user now calls `setValue with "Changed456"`.
The claim requires `confirmPassword`'s error entry to be set to the
mismatch message within the same call.  The source's cascade, however,
runs `validateField` from the render snapshot's closure, whose `values`
still holds the old `password`, so the dependent field is compared
against the pre-update value and no error appears. -/

def fieldsC2 : List (String × FieldConfig) :=
  [("password", { type := FieldType.text }),
   ("confirmPassword", { type := FieldType.text, matchField := some "password" })]

def cfgC2 : FormConfig := { fields := fieldsC2 }

def snapC2 : EngineState :=
  { values := [("password", S "Secret123"), ("confirmPassword", S "Secret123")],
    errors := [],
    touched := [("confirmPassword", true)] }

/-- C2, code behaviour at the failing input: After
`setValue with "Changed456"` the stored `password` is the new
value, yet `confirmPassword` — touched, with matchField set to password,
now different from the new value — has **no** entry in the error map:
the cascade validated it against the stale snapshot, where the two values
still agreed.  The claim (and spec §8 scenario C) requires the entry to
be `"Must match password"`. -/
theorem setFieldValue_match_cascade_uses_stale_values :
    (setFieldValue cfgC2 snapC2 "password" (S "Changed456")).values.lookup "password"
        = some (S "Changed456") ∧
    (setFieldValue cfgC2 snapC2 "password" (S "Changed456")).values.lookup "confirmPassword"
        = some (S "Secret123") ∧
    (setFieldValue cfgC2 snapC2 "password" (S "Changed456")).errors.lookup "confirmPassword"
        = none := by
  exact ⟨by decide, by decide, by decide⟩

/-! ## C4: the per-field `pattern` override -/

/-- An email field whose `pattern` override accepts every string
(`/^[\s\S]*$/`-like), as the docs say a caller may supply. -/
def fieldsC4 : List (String × FieldConfig) :=
  [("contact", { type := FieldType.email, required := true,
                 pattern := some (fun _ => true) })]

/-- C4, code behaviour at the failing input: The value
`"notanemail"` matches the field's `pattern` override (which accepts
everything), so per the claim no pattern error may be produced; but
`validateField` never reads `FieldConfig.pattern` and applies the email
type's default pattern, returning its canonical error. -/
theorem validateField_ignores_pattern_override :
    validateField fieldsC4 [("contact", S "notanemail")] "contact"
      = some "Please enter a valid email address" := by
  decide

/-! ## C7: error withholding in `getFieldProps` -/

def cfgC7 : FormConfig :=
  { fields := [("e", { type := FieldType.text })],
    showErrorsOn := ShowErrorsOn.immediate }

def stC7 : EngineState :=
  { values := [("e", S "x")], errors := [("e", "boom")], touched := [] }

/-- C7 counterexample: With the error-visibility policy set to
`immediate`, an untouched field with a recorded internal error still gets
`error = undefined` from `getFieldProps`: the claimed skipping of the
withholding under the `immediate` policy does not exist in the code. -/
theorem getFieldProps_withholds_even_when_immediate :
    cfgC7.showErrorsOn = ShowErrorsOn.immediate ∧
    stC7.errors.lookup "e" = some "boom" ∧
    (stC7.touched.lookup "e").getD false = false ∧
    bindingError cfgC7 stC7 "e" = some (PropVal.optStr none) := by
  exact ⟨rfl, by decide, by decide, by decide⟩

/-! ## C8: draft expiration in `loadDraft` -/

def draftC8 : DraftData :=
  { values := [("a", S "draft")], touched := [("a", true)], timestamp := 0 }

def stC8 : EngineState :=
  { values := [("a", S "live")], errors := [], touched := [] }

/-- C8 counterexample: With `expirationDays` configured as `0` and
`now - draft.timestamp = 1 ms > 0 ms = expirationDays in milliseconds`,
the claim requires the draft to be discarded via `clearDraft` with
`values` unchanged; but `if (config.autoSave?.expirationDays)` is falsy
for `0`, so the code skips the expiration check, never calls
`clearDraft`, and replaces `values`/`touched` with the expired draft. -/
theorem loadDraft_zero_expirationDays_applies_expired_draft :
    (1 : Int) - draftC8.timestamp > (0 : Nat) * 24 * 60 * 60 * 1000 ∧
    (loadDraft (some 0) 1 (some draftC8) stC8).2 = false ∧
    (loadDraft (some 0) 1 (some draftC8) stC8).1.values = draftC8.values ∧
    draftC8.values ≠ stC8.values := by
  refine ⟨by decide, ?_, ?_, by decide⟩ <;> rfl

/-- C8 amended: For `expirationDays` configured to a **nonzero**
(truthy) number of days: when `now - draft.timestamp` exceeds that many
days in milliseconds, `loadDraft` calls `clearDraft` and leaves `values`
and `touched` unchanged; otherwise it replaces `values` and `touched`
wholesale with the draft's contents. -/
theorem loadDraft_expiration (e : Nat) (now : Int) (d : DraftData)
    (st : EngineState) (he : e ≠ 0) :
    ((((e : Nat) : Int) * 24 * 60 * 60 * 1000 < now - d.timestamp →
        loadDraft (some e) now (some d) st = (st, true)) ∧
     (¬ (((e : Nat) : Int) * 24 * 60 * 60 * 1000 < now - d.timestamp) →
        loadDraft (some e) now (some d) st =
          ({ st with values := d.values, touched := d.touched }, false))) := by
  constructor <;> intro h <;>
    simp [loadDraft, truthyNat, he, h]

/-- Witness for C8's amended theorem: a draft two days old against a
one-day expiry is discarded; the same draft against a three-day expiry is
applied wholesale. -/
theorem loadDraft_expiration_witness :
    loadDraft (some 1) (2 * 24 * 60 * 60 * 1000) (some draftC8) stC8 = (stC8, true) ∧
    loadDraft (some 3) (2 * 24 * 60 * 60 * 1000) (some draftC8) stC8 =
      ({ stC8 with values := draftC8.values, touched := draftC8.touched }, false) := by
  constructor
  · exact (loadDraft_expiration 1 (2 * 24 * 60 * 60 * 1000) draftC8 stC8 (by decide)).1
      (by decide)
  · exact (loadDraft_expiration 3 (2 * 24 * 60 * 60 * 1000) draftC8 stC8 (by decide)).2
      (by decide)

/-! ## C10: the `inputProps` spread in `getFieldProps` -/

theorem beq_symm_false {a b : String} (h : (a == b) = false) : (b == a) = false := by
  rw [beq_eq_false_iff_ne] at h ⊢
  exact fun hc => h hc.symm

theorem lookup_none_of_not_any {β : Type} (l : List (String × β)) (k : String)
    (h : l.any (fun p => p.1 == k) = false) : l.lookup k = none := by
  induction l with
  | nil => rfl
  | cons p rest ih =>
    simp only [List.any_cons, Bool.or_eq_false_iff] at h
    simp [List.lookup, beq_symm_false h.1, ih h.2]

theorem lookup_map_replace {β : Type} (k : String) (v : β) :
    ∀ l : List (String × β), l.any (fun p => p.1 == k) = true →
      (l.map (fun p => cond (p.1 == k) (k, v) p)).lookup k = some v := by
  intro l
  induction l with
  | nil => simp
  | cons p rest ih =>
    intro h
    cases hp : (p.1 == k) with
    | true => simp [List.lookup, hp]
    | false =>
      simp only [List.any_cons, hp, Bool.false_or] at h
      simp [List.lookup, hp, beq_symm_false hp, ih h]

theorem lookup_append_single_self {β : Type} (k : String) (v : β) :
    ∀ l : List (String × β), l.any (fun p => p.1 == k) = false →
      (l ++ [(k, v)]).lookup k = some v := by
  intro l
  induction l with
  | nil => simp [List.lookup]
  | cons p rest ih =>
    intro h
    simp only [List.any_cons, Bool.or_eq_false_iff] at h
    have : (k == p.1) = false := by
      rw [beq_eq_false_iff_ne] at h ⊢
      exact fun hc => h.1 hc.symm
    simp [List.lookup, this, ih h.2]

theorem lookup_objSet_self {β : Type} (l : List (String × β)) (k : String) (v : β) :
    (objSet l k v).lookup k = some v := by
  unfold objSet
  cases h : l.any (fun p => p.1 == k) with
  | true => simpa [h] using lookup_map_replace k v l h
  | false => simpa [h] using lookup_append_single_self k v l h

theorem lookup_map_replace_ne {β : Type} (k k' : String) (v : β)
    (hne : (k' == k) = false) :
    ∀ l : List (String × β),
      (l.map (fun p => cond (p.1 == k) (k, v) p)).lookup k' = l.lookup k' := by
  intro l
  induction l with
  | nil => rfl
  | cons p rest ih =>
    cases hp : (p.1 == k) with
    | true =>
      have hpk : p.1 = k := beq_iff_eq.mp hp
      have hk' : (k' == p.1) = false := by rw [hpk]; exact hne
      simp [List.lookup, hp, hne, hk', ih]
    | false => simp [List.lookup, hp, ih]

theorem lookup_objSet_ne {β : Type} (l : List (String × β)) (k k' : String) (v : β)
    (hne : (k' == k) = false) : (objSet l k v).lookup k' = l.lookup k' := by
  unfold objSet
  cases h : l.any (fun p => p.1 == k) with
  | true => simpa [h] using lookup_map_replace_ne k k' v hne l
  | false =>
    simp only [h, Bool.false_eq_true, if_false]
    induction l with
    | nil => simp [List.lookup, hne]
    | cons p rest ih =>
      simp only [List.any_cons, Bool.or_eq_false_iff] at h
      by_cases hp : (k' == p.1) = true
      · simp [List.lookup, hp]
      · simp only [Bool.not_eq_true] at hp
        simp [List.lookup, hp, ih h.2]

theorem lookup_append {β : Type} (l₁ l₂ : List (String × β)) (k : String) :
    (l₁ ++ l₂).lookup k =
      (match l₁.lookup k with
       | some v => some v
       | none => l₂.lookup k) := by
  induction l₁ with
  | nil => rfl
  | cons p rest ih =>
    cases hp : (k == p.1) with
    | true => simp [List.lookup, hp]
    | false => simp [List.lookup, hp, ih]

/-- The value a JS object literal built from `props` (in order, later
    entries winning) associates to `k`. -/
def jsRecordGet {β : Type} (props : List (String × β)) (k : String) : Option β :=
  props.reverse.lookup k

theorem lookup_foldl_objSet {β : Type} (k : String) :
    ∀ (props acc : List (String × β)),
      (props.foldl (fun a kv => objSet a kv.1 kv.2) acc).lookup k =
        (match jsRecordGet props k with
         | some v => some v
         | none => acc.lookup k) := by
  intro props
  induction props with
  | nil => intro acc; rfl
  | cons p rest ih =>
    intro acc
    simp only [List.foldl_cons, ih (objSet acc p.1 p.2), jsRecordGet,
      List.reverse_cons, lookup_append]
    cases hr : List.lookup k rest.reverse with
    | some v => rfl
    | none =>
      cases hp : (k == p.1) with
      | true =>
        have hkp : k = p.1 := beq_iff_eq.mp hp
        subst hkp
        simp [List.lookup, hp, lookup_objSet_self]
      | false => simp [List.lookup, hp, lookup_objSet_ne acc p.1 k p.2 hp]

/-- C7 amended: For every field whose `inputProps` bag does not
override the `error` key (the bag may hold any other entries, or the
field may be undeclared), `getFieldProps` returns `error = undefined`
whenever the field is untouched — even if an error is recorded in the
internal error map — and returns the recorded error when the field is
touched; this holds for **every** error-visibility policy, including
`immediate`: the binding never consults `showErrorsOn`. -/
theorem getFieldProps_error_iff_touched (cfg : FormConfig) (st : EngineState)
    (fieldName : String)
    (h : jsRecordGet (match cfg.fields.lookup fieldName with
          | some fc => fc.inputProps
          | none => []) "error" = none) :
    bindingError cfg st fieldName =
      some (PropVal.optStr
        (if (st.touched.lookup fieldName).getD false then st.errors.lookup fieldName
         else none)) := by
  simp only [bindingError, getFieldProps]
  rw [lookup_foldl_objSet, h]
  simp [List.lookup]

/-- A field like `cfgC7`, with `showErrorsOn = immediate`, but whose
`inputProps` bag is non-empty (a caller-supplied placeholder entry) while
not overriding `error`. -/
def cfgC7b : FormConfig :=
  { fields := [("e", { type := FieldType.text,
                       inputProps := [("placeholder", PropVal.ext 3)] })],
    showErrorsOn := ShowErrorsOn.immediate }

/-- Witness for C7's amended theorem on a field carrying a non-empty
`inputProps` bag without an `error` entry: untouched at `stC7`, and
touched with the recorded error surfaced. -/
theorem getFieldProps_error_iff_touched_witness :
    bindingError cfgC7b stC7 "e" =
      some (PropVal.optStr
        (if (stC7.touched.lookup "e").getD false then stC7.errors.lookup "e" else none)) ∧
    bindingError cfgC7b { stC7 with touched := [("e", true)] } "e" =
      some (PropVal.optStr (some "boom")) := by
  constructor
  · exact getFieldProps_error_iff_touched cfgC7b stC7 "e" (by decide)
  · have h := getFieldProps_error_iff_touched cfgC7b
      { stC7 with touched := [("e", true)] } "e" (by decide)
    rw [h]
    decide

/-- C10: In the binding object returned by `getFieldProps`, the
field's `inputProps` bag is spread last: whenever `inputProps` contains a
key named `value`, `onChangeText`, `onBlur`, `error` or `touched`, the
binding's member under that key is the `inputProps` entry, replacing the
engine-provided member. -/
theorem getFieldProps_inputProps_override (cfg : FormConfig) (st : EngineState)
    (fieldName : String) (fc : FieldConfig) (k : String) (v : PropVal)
    (hfc : cfg.fields.lookup fieldName = some fc)
    (hk : k = "value" ∨ k = "onChangeText" ∨ k = "onBlur" ∨ k = "error" ∨ k = "touched")
    (hv : jsRecordGet fc.inputProps k = some v) :
    (getFieldProps cfg st fieldName).lookup k = some v := by
  simp only [getFieldProps, hfc]
  rw [lookup_foldl_objSet, hv]

def fcC10 : FieldConfig :=
  { type := FieldType.text, inputProps := [("value", PropVal.ext 7)] }

def cfgC10 : FormConfig := { fields := [("f", fcC10)] }

/-- Witness for C10: a field whose `inputProps` carries its own `value`
member sees that member — not the engine's stored value — in the binding. -/
theorem getFieldProps_inputProps_override_witness :
    (getFieldProps cfgC10 (initState cfgC10.fields) "f").lookup "value"
      = some (PropVal.ext 7) :=
  getFieldProps_inputProps_override cfgC10 (initState cfgC10.fields) "f" fcC10
    "value" (PropVal.ext 7) rfl (Or.inl rfl) rfl

/-! ## C6: shape of the currency formatter's output -/

/-- Units after the first dot (the fractional part when there is at most
    one dot). -/
def fracLen (l : JsStr) : Nat :=
  ((l.dropWhile (fun c => c != 46)).drop 1).length

theorem splitDots_ne_nil : ∀ l : JsStr, formatters.splitDots l ≠ [] := by
  intro l
  cases l with
  | nil => simp [formatters.splitDots]
  | cons c rest =>
    simp only [formatters.splitDots]
    cases formatters.splitDots rest with
    | nil => simp
    | cons h t => cases hc : (c == 46) <;> simp [hc]

/-- Pieces produced by `split('.')` contain no dot. -/
theorem splitDots_no_dot : ∀ (l : JsStr) (p : JsStr), p ∈ formatters.splitDots l → 46 ∉ p := by
  intro l
  induction l with
  | nil =>
    intro p hp
    simp [formatters.splitDots] at hp
    simp [hp]
  | cons c rest ih =>
    intro p hp
    simp only [formatters.splitDots] at hp
    cases hs : formatters.splitDots rest with
    | nil => exact absurd hs (splitDots_ne_nil rest)
    | cons h t =>
      rw [hs] at hp
      cases hc : (c == 46) with
      | true =>
        simp only [hc, if_true] at hp
        rcases List.mem_cons.mp hp with rfl | hmem
        · simp
        · exact ih p (hs ▸ hmem)
      | false =>
        simp only [hc, Bool.false_eq_true, if_false] at hp
        rcases List.mem_cons.mp hp with rfl | hmem
        · intro hin
          rcases List.mem_cons.mp hin with h46 | hin'
          · exact absurd (beq_iff_eq.mpr h46.symm) (by simp [hc])
          · exact ih h (hs ▸ List.mem_cons_self h t) hin'
        · exact ih p (hs ▸ List.mem_cons.mpr (Or.inr hmem))

/-- Every unit of a split piece occurs in the original string. -/
theorem mem_of_mem_splitDots :
    ∀ (l : JsStr) (p : JsStr) (c : Nat), p ∈ formatters.splitDots l → c ∈ p → c ∈ l := by
  intro l
  induction l with
  | nil =>
    intro p c hp hc
    simp [formatters.splitDots] at hp
    subst hp
    simp at hc
  | cons x rest ih =>
    intro p c hp hc
    simp only [formatters.splitDots] at hp
    cases hs : formatters.splitDots rest with
    | nil => exact absurd hs (splitDots_ne_nil rest)
    | cons h t =>
      rw [hs] at hp
      cases hx : (x == 46) with
      | true =>
        simp only [hx, if_true] at hp
        rcases List.mem_cons.mp hp with rfl | hmem
        · simp at hc
        · exact List.mem_cons.mpr (Or.inr (ih p c (hs ▸ hmem) hc))
      | false =>
        simp only [hx, Bool.false_eq_true, if_false] at hp
        rcases List.mem_cons.mp hp with rfl | hmem
        · rcases List.mem_cons.mp hc with rfl | hc'
          · exact List.mem_cons_self _ _
          · exact List.mem_cons.mpr
              (Or.inr (ih h c (hs ▸ List.mem_cons_self h t) hc'))
        · exact List.mem_cons.mpr (Or.inr (ih p c (hs ▸ List.mem_cons.mpr (Or.inr hmem)) hc))

theorem length_splitDots : ∀ l : JsStr, (formatters.splitDots l).length = l.count 46 + 1 := by
  intro l
  induction l with
  | nil => simp [formatters.splitDots]
  | cons c rest ih =>
    simp only [formatters.splitDots]
    cases hs : formatters.splitDots rest with
    | nil => exact absurd hs (splitDots_ne_nil rest)
    | cons h t =>
      rw [hs] at ih
      cases hc : (c == 46) with
      | true =>
        have : c = 46 := beq_iff_eq.mp hc
        simp [this, List.count_cons, ih]
      | false =>
        have hne : ¬ c = 46 := by simpa using (beq_eq_false_iff_ne.mp hc)
        simp only [List.length_cons] at ih
        simp only [hc, Bool.false_eq_true, if_false, List.length_cons,
          List.count_cons, hne]
        omega

/-- Rebuilding the pieces with dots gives back the original string. -/
def joinDots : List JsStr → JsStr
  | [] => []
  | [p] => p
  | p :: ps => p ++ 46 :: joinDots ps

theorem joinDots_cons_cons (c : Nat) (h : JsStr) (t : List JsStr) :
    joinDots ((c :: h) :: t) = c :: joinDots (h :: t) := by
  cases t <;> rfl

theorem joinDots_splitDots : ∀ l : JsStr, joinDots (formatters.splitDots l) = l := by
  intro l
  induction l with
  | nil => rfl
  | cons c rest ih =>
    simp only [formatters.splitDots]
    cases hs : formatters.splitDots rest with
    | nil => exact absurd hs (splitDots_ne_nil rest)
    | cons h t =>
      rw [hs] at ih
      cases hc : (c == 46) with
      | true =>
        have hc46 : c = 46 := beq_iff_eq.mp hc
        simp only [hc, if_true]
        show joinDots ([] :: h :: t) = c :: rest
        have : joinDots ([] :: h :: t) = [] ++ 46 :: joinDots (h :: t) := rfl
        rw [this, ih, hc46]
        rfl
      | false =>
        simp only [hc, Bool.false_eq_true, if_false]
        rw [joinDots_cons_cons, ih]

theorem fracLen_append_dot (a b : JsStr) (ha : 46 ∉ a) :
    fracLen (a ++ 46 :: b) = b.length := by
  unfold fracLen
  induction a with
  | nil => simp [List.dropWhile]
  | cons x a' ih =>
    have hx : (x != 46) = true := by
      simp only [bne_iff_ne, ne_eq]
      intro hc
      exact ha (hc ▸ List.mem_cons_self x a')
    simp only [List.cons_append, List.dropWhile_cons, hx, if_true]
    exact ih (fun hc => ha (List.mem_cons.mpr (Or.inr hc)))

theorem fracLen_no_dot (l : JsStr) (h : 46 ∉ l) : fracLen l = 0 := by
  unfold fracLen
  have : l.dropWhile (fun c => c != 46) = [] := by
    rw [List.dropWhile_eq_nil_iff]
    intro x hx
    simp only [bne_iff_ne, ne_eq]
    intro hc
    exact h (hc ▸ hx)
  simp [this]

theorem count_flatten_no_dot (pieces : List JsStr)
    (h : ∀ p ∈ pieces, 46 ∉ p) : (46 : Nat) ∉ pieces.flatten := by
  intro hc
  rcases List.mem_flatten.mp hc with ⟨p, hp, hcp⟩
  exact h p hp hcp

/-- C6 counterexample: On the input `"1.2.345"` the currency
formatter takes the collapse-extra-dots branch and returns `"1.2345"`
without truncating, so the output's fractional part has 4 digits — the
claimed "at most one dot followed by at most two digits" fails. -/
theorem currency_multi_dot_not_truncated :
    formatters.currency (S "1.2.345") = S "1.2345" ∧
    ¬ fracLen (formatters.currency (S "1.2.345")) ≤ 2 := by
  exact ⟨by decide, by decide⟩

/-- C6 amended: For every input, the currency formatter removes
every unit other than digits and dots and collapses multiple dots into
one by keeping only the first, so its output always contains at most one
dot; the fractional part is truncated to at most 2 digits **when the
input contains at most one dot** — in the multi-dot branch the collapsed
fractional part is returned untruncated and may be longer. -/
theorem currency_output_shape (l : JsStr) :
    (∀ c ∈ formatters.currency l, formatters.keepDigitDot c = true) ∧
    (formatters.currency l).count 46 ≤ 1 ∧
    (l.count 46 ≤ 1 → fracLen (formatters.currency l) ≤ 2) := by
  unfold formatters.currency
  simp only []
  set cleaned := l.filter formatters.keepDigitDot with hcleaned
  have hmemc : ∀ c ∈ cleaned, formatters.keepDigitDot c = true := by
    intro c hc
    exact (List.mem_filter.mp hc).2
  have hcount : cleaned.count 46 = l.count 46 := by
    rw [hcleaned]
    exact List.count_filter (by decide)
  have hlen := length_splitDots cleaned
  have hjoin := joinDots_splitDots cleaned
  have hnodot := splitDots_no_dot cleaned
  have hmempieces := mem_of_mem_splitDots cleaned
  by_cases hbig : 2 < (formatters.splitDots cleaned).length
  · simp only [hbig, if_true]
    cases hs : formatters.splitDots cleaned with
    | nil => exact absurd hs (splitDots_ne_nil cleaned)
    | cons h t =>
      rw [hs] at hnodot hmempieces hlen
      refine ⟨?_, ?_, ?_⟩
      · intro c hc
        rcases List.mem_append.mp hc with hc1 | hc2
        · exact hmemc c (hmempieces h c (List.mem_cons_self h t)
            (by simpa using hc1))
        · rcases List.mem_cons.mp hc2 with rfl | hc3
          · decide
          · rcases List.mem_flatten.mp (by simpa using hc3) with ⟨p, hp, hcp⟩
            exact hmemc c (hmempieces p c
              (by simpa using List.mem_cons.mpr (Or.inr hp)) hcp)
      · have h1 : List.count 46 h = 0 :=
          List.count_eq_zero.mpr (hnodot h (List.mem_cons_self h t))
        have h2 : List.count 46 t.flatten = 0 :=
          List.count_eq_zero.mpr (count_flatten_no_dot t
            (fun p hp => hnodot p (List.mem_cons.mpr (Or.inr hp))))
        rw [List.count_append, List.count_cons]
        simp [List.headD_cons, h1, h2]
      · intro hle
        rw [hs, hlen] at hbig
        omega
  · simp only [hbig, if_false]
    cases hs : formatters.splitDots cleaned with
    | nil => exact absurd hs (splitDots_ne_nil cleaned)
    | cons h t =>
      rw [hs] at hnodot hmempieces hlen hjoin
      cases t with
      | nil =>
        -- one piece: no dot in `cleaned`, which is returned unchanged
        have hnd : 46 ∉ cleaned := by
          rw [← hjoin]
          exact hnodot h (List.mem_cons_self h [])
        refine ⟨hmemc, ?_, fun _ => ?_⟩
        · rw [List.count_eq_zero.mpr hnd]
          omega
        · rw [fracLen_no_dot cleaned hnd]
          omega
      | cons b t' =>
        cases t' with
        | cons p2 t'' =>
          exfalso
          apply hbig
          rw [hs]
          simp only [List.length_cons]
          omega
        | nil =>
          -- exactly two pieces: `cleaned = h ++ 46 :: b`
          have hnh : 46 ∉ h := hnodot h (List.mem_cons_self h [b])
          have hnb : 46 ∉ b := hnodot b (by simp)
          have hcl : cleaned = h ++ 46 :: b := by
            rw [← hjoin]
            rfl
          by_cases hb2 : 2 < b.length
          · simp only [hb2, if_true]
            refine ⟨?_, ?_, fun _ => ?_⟩
            · intro c hc
              rcases List.mem_append.mp hc with hc1 | hc2
              · exact hmemc c (hcl ▸ List.mem_append.mpr (Or.inl hc1))
              · rcases List.mem_cons.mp hc2 with rfl | hc3
                · decide
                · exact hmemc c (hcl ▸ List.mem_append.mpr
                    (Or.inr (List.mem_cons.mpr (Or.inr (List.mem_of_mem_take hc3)))))
            · rw [List.count_append, List.count_cons]
              have h1 : h.count 46 = 0 := List.count_eq_zero.mpr hnh
              have h2 : (b.take 2).count 46 = 0 :=
                List.count_eq_zero.mpr (fun hc => hnb (List.mem_of_mem_take hc))
              simp [h1, h2]
            · rw [fracLen_append_dot h (b.take 2) hnh]
              simp [List.length_take]
          · simp only [hb2, if_false]
            refine ⟨hmemc, ?_, fun _ => ?_⟩
            · rw [hcl, List.count_append, List.count_cons]
              have h1 : h.count 46 = 0 := List.count_eq_zero.mpr hnh
              have h2 : b.count 46 = 0 := List.count_eq_zero.mpr hnb
              simp [h1, h2]
            · rw [hcl, fracLen_append_dot h b hnh]
              omega

/-- Witness for C6's amended theorem at a single-dot input: the output of
`"$10.999"` keeps one dot and exactly two fractional digits. -/
theorem currency_output_shape_witness :
    (formatters.currency (S "$10.999")).count 46 ≤ 1 ∧
    fracLen (formatters.currency (S "$10.999")) ≤ 2 := by
  refine ⟨(currency_output_shape (S "$10.999")).2.1,
    (currency_output_shape (S "$10.999")).2.2 (by decide)⟩

/-! ## C5: credit-card validation -/

/-- The claim's Luhn checksum, written from its own words on the
    right-to-left digit list: the first (rightmost) digit is kept, every
    second digit is doubled with 9 subtracted when the doubled value
    exceeds 9, and all contributions are summed. -/
def luhnSpecSum : List Nat → Nat
  | [] => 0
  | [d] => d
  | d :: e :: rest => d + (if 9 < 2 * e then 2 * e - 9 else 2 * e) + luhnSpecSum rest

/-- Validity per the claim: the spec sum is a multiple of 10. -/
def luhnSpecOk (digitsRightToLeft : List Nat) : Bool :=
  luhnSpecSum digitsRightToLeft % 10 == 0

theorem luhnAux_false_eq_spec : ∀ l : List Nat, validators.luhnAux false l = luhnSpecSum l
  | [] => rfl
  | [d] => by simp [validators.luhnAux, luhnSpecSum, validators.luhnDouble]
  | d :: e :: rest => by
    simp [validators.luhnAux, luhnSpecSum, validators.luhnDouble,
      luhnAux_false_eq_spec rest]
    omega

/-- The doubling flag after consuming `n` units. -/
def flagAfter (flag : Bool) (n : Nat) : Bool := if n % 2 == 1 then !flag else flag

theorem luhnAux_append :
    ∀ (A : List Nat) (flag : Bool) (B : List Nat),
      validators.luhnAux flag (A ++ B) =
        validators.luhnAux flag A + validators.luhnAux (flagAfter flag A.length) B := by
  intro A
  induction A with
  | nil => intro flag B; simp [validators.luhnAux, flagAfter]
  | cons a A' ih =>
    intro flag B
    have hflag : flagAfter (!flag) A'.length = flagAfter flag (A'.length + 1) := by
      rcases Nat.even_or_odd A'.length with h | h
      · have h0 : A'.length % 2 = 0 := Nat.even_iff.mp h
        have h1 : (A'.length + 1) % 2 = 1 := by omega
        simp [flagAfter, h0, h1]
      · have h0 : A'.length % 2 = 1 := Nat.odd_iff.mp h
        have h1 : (A'.length + 1) % 2 = 0 := by omega
        simp [flagAfter, h0, h1]
    have step1 : validators.luhnAux flag ((a :: A') ++ B)
        = (if flag then validators.luhnDouble a else a)
          + validators.luhnAux (!flag) (A' ++ B) := rfl
    have step2 : validators.luhnAux flag (a :: A')
        = (if flag then validators.luhnDouble a else a)
          + validators.luhnAux (!flag) A' := rfl
    rw [step1, step2, ih (!flag) B, hflag, List.length_cons]
    omega

theorem luhnDouble_le (x : Nat) (hx : x ≤ 9) : validators.luhnDouble x ≤ 9 := by
  unfold validators.luhnDouble
  split <;> omega

theorem luhnContribution_inj (flag : Bool) (x y : Nat) (hx : x ≤ 9) (hy : y ≤ 9)
    (h : (if flag then validators.luhnDouble x else x)
        = (if flag then validators.luhnDouble y else y)) : x = y := by
  cases flag
  · simpa using h
  · simp only [if_true] at h
    unfold validators.luhnDouble at h
    split at h <;> split at h <;> omega

theorem digit_not_space {c : Nat} (h : isDigitN c = true) : isJsSpaceN c = false := by
  simp only [isDigitN, Bool.and_eq_true, decide_eq_true_eq] at h
  simp only [isJsSpaceN, Bool.or_eq_false_iff, beq_eq_false_iff_ne, ne_eq]
  omega

theorem filter_nonspace_of_digits {l : List Nat} (h : ∀ c ∈ l, isDigitN c = true) :
    l.filter (fun c => !isJsSpaceN c) = l := by
  rw [List.filter_eq_self]
  intro c hc
  simp [digit_not_space (h c hc)]

theorem luhnCheck_digits (clean : List Nat) (hall : ∀ c ∈ clean, isDigitN c = true) :
    validators.luhnCheck clean
      = (luhnSpecSum (clean.reverse.map (· - 48)) % 10 == 0) := by
  unfold validators.luhnCheck
  rw [filter_nonspace_of_digits hall]
  have hall' : clean.reverse.all isDigitN = true := by
    rw [List.all_eq_true]
    intro c hc
    exact hall c (List.mem_reverse.mp hc)
  simp [hall', luhnAux_false_eq_spec]

/-- Changing a single digit of an all-digit Luhn-valid string breaks the
    checksum: the per-position contribution map is injective modulo 10. -/
theorem luhnCheck_mutation (l1 l2 : List Nat) (d d' : Nat)
    (hall : ∀ c ∈ l1 ++ d :: l2, isDigitN c = true)
    (hd' : isDigitN d' = true) (hne : d ≠ d')
    (hv : validators.luhnCheck (l1 ++ d :: l2) = true) :
    validators.luhnCheck (l1 ++ d' :: l2) = false := by
  have hd : isDigitN d = true := hall d (by simp)
  have hall1 : ∀ c ∈ l1, isDigitN c = true := fun c hc => hall c (by simp [hc])
  have hall2 : ∀ c ∈ l2, isDigitN c = true := fun c hc => hall c (by simp [hc])
  have hall' : ∀ c ∈ l1 ++ d' :: l2, isDigitN c = true := by
    intro c hc
    rcases List.mem_append.mp hc with h1 | h2
    · exact hall1 c h1
    · rcases List.mem_cons.mp h2 with rfl | h3
      · exact hd'
      · exact hall2 c h3
  have hrev : ∀ x : Nat, (l1 ++ x :: l2).reverse = l2.reverse ++ x :: l1.reverse := by
    intro x
    rw [List.reverse_append, List.reverse_cons, List.append_assoc]
    rfl
  have hsum : ∀ x : Nat,
      validators.luhnAux false ((l2.reverse ++ x :: l1.reverse).map (· - 48)) =
        validators.luhnAux false (l2.reverse.map (· - 48)) +
        ((if flagAfter false (l2.reverse.map (· - 48)).length
          then validators.luhnDouble (x - 48) else (x - 48)) +
          validators.luhnAux (!(flagAfter false (l2.reverse.map (· - 48)).length))
            (l1.reverse.map (· - 48))) := by
    intro x
    rw [List.map_append, List.map_cons, luhnAux_append]
    rfl
  rw [luhnCheck_digits _ hall] at hv
  rw [luhnCheck_digits _ hall']
  rw [← luhnAux_false_eq_spec] at hv ⊢
  rw [hrev d, hsum d] at hv
  rw [hrev d', hsum d']
  set C := validators.luhnAux false (l2.reverse.map (· - 48)) with hC
  set flagA := flagAfter false (l2.reverse.map (· - 48)).length with hflagA
  set D := validators.luhnAux (!flagA) (l1.reverse.map (· - 48)) with hD
  have hdbound : d - 48 ≤ 9 := by
    simp only [isDigitN, Bool.and_eq_true, decide_eq_true_eq] at hd
    omega
  have hdbound' : d' - 48 ≤ 9 := by
    simp only [isDigitN, Bool.and_eq_true, decide_eq_true_eq] at hd'
    omega
  have hgx : (if flagA then validators.luhnDouble (d - 48) else (d - 48)) ≤ 9 := by
    cases flagA
    · simpa using hdbound
    · simpa using luhnDouble_le _ hdbound
  have hgy : (if flagA then validators.luhnDouble (d' - 48) else (d' - 48)) ≤ 9 := by
    cases flagA
    · simpa using hdbound'
    · simpa using luhnDouble_le _ hdbound'
  cases hres : ((C + ((if flagA then validators.luhnDouble (d' - 48) else d' - 48) + D)) % 10 == 0) with
  | false => rfl
  | true =>
    exfalso
    have h1 : (C + ((if flagA then validators.luhnDouble (d - 48) else d - 48) + D)) % 10 = 0 := by
      simpa using hv
    have h2 : (C + ((if flagA then validators.luhnDouble (d' - 48) else d' - 48) + D)) % 10 = 0 := by
      simpa using hres
    have heq : (if flagA then validators.luhnDouble (d - 48) else d - 48)
        = (if flagA then validators.luhnDouble (d' - 48) else d' - 48) := by
      omega
    have : d - 48 = d' - 48 := luhnContribution_inj flagA _ _ hdbound hdbound' heq
    have h48 : 48 ≤ d := by
      simp only [isDigitN, Bool.and_eq_true, decide_eq_true_eq] at hd
      omega
    have h48' : 48 ≤ d' := by
      simp only [isDigitN, Bool.and_eq_true, decide_eq_true_eq] at hd'
      omega
    exact hne (by omega)

theorem dropRightWhile_eq_nil_iff (p : Nat → Bool) :
    ∀ l : JsStr, dropRightWhile p l = [] ↔ ∀ c ∈ l, p c = true := by
  intro l
  induction l with
  | nil => simp [dropRightWhile]
  | cons c cs ih =>
    simp only [dropRightWhile]
    by_cases h : (dropRightWhile p cs).isEmpty && p c
    · simp only [h, if_true]
      rw [Bool.and_eq_true, List.isEmpty_iff] at h
      constructor
      · intro _ x hx
        rcases List.mem_cons.mp hx with rfl | hx'
        · exact h.2
        · exact (ih.mp h.1) x hx'
      · intro _; trivial
    · simp only [h, if_false]
      rw [Bool.and_eq_true, List.isEmpty_iff] at h
      constructor
      · intro hc; exact absurd hc (List.cons_ne_nil _ _)
      · intro hall
        exact absurd ⟨ih.mpr (fun x hx => hall x (List.mem_cons.mpr (Or.inr hx))),
          hall c (List.mem_cons_self c cs)⟩ h

theorem jsTrim_eq_nil_iff (l : JsStr) :
    jsTrim l = [] ↔ ∀ c ∈ l, isJsSpaceN c = true := by
  unfold jsTrim
  rw [dropRightWhile_eq_nil_iff]
  constructor
  · intro h c hc
    rw [← List.takeWhile_append_dropWhile isJsSpaceN l] at hc
    rcases List.mem_append.mp hc with h1 | h2
    · exact List.mem_takeWhile_imp h1
    · exact h c h2
  · intro h c hc
    exact h c ((List.dropWhile_sublist isJsSpaceN).subset hc)

theorem dropWhile_eq_self_of_all (p : Nat → Bool) (l : JsStr)
    (h : ∀ c ∈ l, p c = false) : l.dropWhile p = l := by
  cases l with
  | nil => rfl
  | cons c cs => simp [List.dropWhile_cons, h c (List.mem_cons_self c cs)]

theorem dropRightWhile_eq_self_of_all (p : Nat → Bool) :
    ∀ l : JsStr, (∀ c ∈ l, p c = false) → dropRightWhile p l = l := by
  intro l
  induction l with
  | nil => intro _; rfl
  | cons c cs ih =>
    intro h
    have hcs := ih (fun x hx => h x (List.mem_cons.mpr (Or.inr hx)))
    simp [dropRightWhile, hcs, h c (List.mem_cons_self c cs)]

theorem jsTrim_eq_self_of_no_space (l : JsStr)
    (h : ∀ c ∈ l, isJsSpaceN c = false) : jsTrim l = l := by
  unfold jsTrim
  rw [dropWhile_eq_self_of_all _ _ h, dropRightWhile_eq_self_of_all _ _ h]

/-- The plain credit-card field of the claim: type creditCard,
    `required: true`, nothing else configured. -/
def ccField : FieldConfig := { type := FieldType.creditCard, required := true }

theorem validateField_cc_reduce (v : JsStr) (htrim : (jsTrim v).isEmpty = false)
    (hvne : v.isEmpty = false) (hpat : creditCardPat v = true) :
    validateField [("card", ccField)] [("card", v)] "card"
      = validators.creditCardLuhn v := by
  have h1 : List.lookup "card" [("card", ccField)] = some ccField := rfl
  have h2 : List.lookup "card" [("card", v)] = some v := rfl
  have hreq : ccField.required = true := rfl
  have hmin : ccField.minLength = none := rfl
  have hmax : ccField.maxLength = none := rfl
  have htype : ccField.type = FieldType.creditCard := rfl
  have hmf : ccField.matchField = none := rfl
  have hcv : ccField.customValidation = none := rfl
  simp only [validateField, h1, h2, Option.getD_some, hreq, if_true,
    validators.required, htrim, Bool.false_eq_true, if_false, Bool.not_true,
    Bool.and_false, hmin, hmax, validators.pattern, hvne, htype, patternFor,
    hpat, beq_self_eq_true, hmf, customStage, hcv]
  cases validators.creditCardLuhn v <;> rfl

/-- C5: For a required creditCard field with a non-empty value that
passes the digits-and-spaces pattern, `validateField` returns null iff
after stripping spaces the remaining unit count is within [13, 19] and
the standard Luhn checksum — right-to-left, double every second digit,
subtract 9 when the doubled value exceeds 9, sum ≡ 0 (mod 10) — holds;
and any single-digit mutation of a valid all-digit number yields a
non-null error. -/
theorem validateField_creditCard_luhn :
    (∀ v : JsStr, v ≠ [] → creditCardPat v = true →
      (validateField [("card", ccField)] [("card", v)] "card" = none ↔
        (13 ≤ (v.filter (fun c => !isJsSpaceN c)).length ∧
         (v.filter (fun c => !isJsSpaceN c)).length ≤ 19 ∧
         luhnSpecOk (((v.filter (fun c => !isJsSpaceN c)).reverse).map (· - 48)) = true))) ∧
    (∀ (l1 l2 : List Nat) (d d' : Nat),
      (∀ c ∈ l1 ++ d :: l2, isDigitN c = true) → isDigitN d' = true → d ≠ d' →
      validateField [("card", ccField)] [("card", l1 ++ d :: l2)] "card" = none →
      validateField [("card", ccField)] [("card", l1 ++ d' :: l2)] "card" ≠ none) := by
  have hpatchars : ∀ v : JsStr, creditCardPat v = true →
      ∀ c ∈ v, isDigitN c = true ∨ isJsSpaceN c = true := by
    intro v hp c hc
    unfold creditCardPat at hp
    rw [Bool.and_eq_true, List.all_eq_true] at hp
    have := hp.2 c hc
    rcases Bool.or_eq_true _ _ ▸ this with h | h
    · exact Or.inl h
    · exact Or.inr h
  have hcleandig : ∀ v : JsStr, creditCardPat v = true →
      ∀ c ∈ v.filter (fun c => !isJsSpaceN c), isDigitN c = true := by
    intro v hp c hc
    rcases List.mem_filter.mp hc with ⟨hcv, hcns⟩
    rcases hpatchars v hp c hcv with h | h
    · exact h
    · rw [h] at hcns; simp at hcns
  have main : ∀ v : JsStr, v ≠ [] → creditCardPat v = true →
      (validateField [("card", ccField)] [("card", v)] "card" = none ↔
        (13 ≤ (v.filter (fun c => !isJsSpaceN c)).length ∧
         (v.filter (fun c => !isJsSpaceN c)).length ≤ 19 ∧
         luhnSpecOk (((v.filter (fun c => !isJsSpaceN c)).reverse).map (· - 48)) = true)) := by
    intro v hv hpat
    by_cases htrim : (jsTrim v).isEmpty = true
    · -- whitespace-only value: required fails and the stripped list is empty
      have hallsp : ∀ c ∈ v, isJsSpaceN c = true := by
        rw [List.isEmpty_iff] at htrim
        exact (jsTrim_eq_nil_iff v).mp htrim
      have hclean : v.filter (fun c => !isJsSpaceN c) = [] := by
        rw [List.filter_eq_nil_iff]
        intro c hc
        simp [hallsp c hc]
      constructor
      · intro h
        exfalso
        have h1 : List.lookup "card" [("card", ccField)] = some ccField := rfl
        have h2 : List.lookup "card" [("card", v)] = some v := rfl
        have hreq : ccField.required = true := rfl
        rw [List.isEmpty_iff] at htrim
        simp only [validateField, h1, h2, Option.getD_some, hreq, if_true,
          validators.required, htrim, List.isEmpty_nil, if_true] at h
        exact Option.noConfusion h
      · intro h
        rw [hclean] at h
        simp at h
    · have hiff := validateField_cc_reduce v (Bool.not_eq_true _ ▸ htrim)
        (by rw [List.isEmpty_eq_false]; exact hv) hpat
      rw [hiff]
      unfold validators.creditCardLuhn
      rw [show v.isEmpty = false by rw [List.isEmpty_eq_false]; exact hv]
      simp only [Bool.false_eq_true, if_false]
      set clean := v.filter (fun c => !isJsSpaceN c) with hcleandef
      cases hlen : (decide (clean.length < 13) || decide (19 < clean.length)) with
      | true =>
        simp only [hlen, if_true]
        constructor
        · intro h; simp at h
        · intro ⟨ha, hb, _⟩
          rw [Bool.or_eq_true, decide_eq_true_eq, decide_eq_true_eq] at hlen
          omega
      | false =>
        simp only [hlen, Bool.false_eq_true, if_false]
        rw [Bool.or_eq_false_iff, decide_eq_false_iff_not, decide_eq_false_iff_not] at hlen
        rw [luhnCheck_digits clean (hcleandig v hpat)]
        unfold luhnSpecOk
        cases hchk : (luhnSpecSum ((clean.reverse).map (· - 48)) % 10 == 0) with
        | true =>
          simp only [hchk, if_true]
          constructor
          · intro _
            exact ⟨by omega, by omega, trivial⟩
          · intro _; trivial
        | false =>
          simp only [hchk, Bool.false_eq_true, if_false]
          constructor
          · intro h; simp at h
          · intro ⟨_, _, hc⟩
            exact absurd hc (by simp [hchk])
  constructor
  · exact main
  · intro l1 l2 d d' hall hd' hne hvalid
    have hall' : ∀ c ∈ l1 ++ d' :: l2, isDigitN c = true := by
      intro c hc
      rcases List.mem_append.mp hc with hc1 | hc2
      · exact hall c (List.mem_append.mpr (Or.inl hc1))
      · rcases List.mem_cons.mp hc2 with rfl | hc3
        · exact hd'
        · exact hall c (List.mem_append.mpr (Or.inr (List.mem_cons.mpr (Or.inr hc3))))
    have hvne : (l1 ++ d :: l2) ≠ [] := by simp
    have hvne' : (l1 ++ d' :: l2) ≠ [] := by simp
    have hpat : creditCardPat (l1 ++ d :: l2) = true := by
      unfold creditCardPat
      rw [Bool.and_eq_true, List.all_eq_true]
      exact ⟨by simp, fun c hc => by simp [hall c hc]⟩
    have hpat' : creditCardPat (l1 ++ d' :: l2) = true := by
      unfold creditCardPat
      rw [Bool.and_eq_true, List.all_eq_true]
      exact ⟨by simp, fun c hc => by simp [hall' c hc]⟩
    have hfil : (l1 ++ d :: l2).filter (fun c => !isJsSpaceN c) = l1 ++ d :: l2 :=
      filter_nonspace_of_digits hall
    have hfil' : (l1 ++ d' :: l2).filter (fun c => !isJsSpaceN c) = l1 ++ d' :: l2 :=
      filter_nonspace_of_digits hall'
    have hred := validateField_cc_reduce (l1 ++ d :: l2)
      (by rw [jsTrim_eq_self_of_no_space _ (fun c hc => digit_not_space (hall c hc)),
            List.isEmpty_eq_false]; exact hvne)
      (by rw [List.isEmpty_eq_false]; exact hvne) hpat
    have hred' := validateField_cc_reduce (l1 ++ d' :: l2)
      (by rw [jsTrim_eq_self_of_no_space _ (fun c hc => digit_not_space (hall' c hc)),
            List.isEmpty_eq_false]; exact hvne')
      (by rw [List.isEmpty_eq_false]; exact hvne') hpat'
    rw [hred] at hvalid
    rw [hred']
    unfold validators.creditCardLuhn at hvalid ⊢
    rw [show (l1 ++ d :: l2).isEmpty = false by rw [List.isEmpty_eq_false]; exact hvne,
      hfil] at hvalid
    rw [show (l1 ++ d' :: l2).isEmpty = false by rw [List.isEmpty_eq_false]; exact hvne',
      hfil']
    simp only [Bool.false_eq_true, if_false] at hvalid ⊢
    have hlensame : (l1 ++ d' :: l2).length = (l1 ++ d :: l2).length := by simp
    cases hlen : (decide ((l1 ++ d :: l2).length < 13)
        || decide (19 < (l1 ++ d :: l2).length)) with
    | true =>
      rw [hlen] at hvalid
      simp at hvalid
    | false =>
      rw [hlen] at hvalid
      simp only [Bool.false_eq_true, if_false] at hvalid
      rw [hlensame, hlen]
      simp only [Bool.false_eq_true, if_false]
      have hchk : validators.luhnCheck (l1 ++ d :: l2) = true := by
        cases hc : validators.luhnCheck (l1 ++ d :: l2) with
        | true => rfl
        | false =>
          rw [hc] at hvalid
          simp at hvalid
      rw [luhnCheck_mutation l1 l2 d d' hall hd' hne hchk]
      simp

/-- Witness for C5: the Visa test number `4111 1111 1111 1111` validates
to null, and mutating its last digit from 1 to 2 yields an error. -/
theorem validateField_creditCard_luhn_witness :
    validateField [("card", ccField)] [("card", S "4111 1111 1111 1111")] "card" = none ∧
    validateField [("card", ccField)]
      [("card", S "411111111111111" ++ [50])] "card" ≠ none := by
  constructor
  · exact (validateField_creditCard_luhn.1 (S "4111 1111 1111 1111")
      (by decide) (by decide)).mpr (by decide)
  · exact validateField_creditCard_luhn.2 (S "411111111111111") [] 49 50
      (by decide) (by decide) (by decide) (by decide)

/-! ## C9: idempotence of the auto-formatters on canonical inputs

### Unit-level case-mapping lemmas -/

theorem toUpperN_idem (c : Nat) : toUpperN (toUpperN c) = toUpperN c := by
  by_cases h : (decide (97 ≤ c) && decide (c ≤ 122)) = true
  · have h1 : toUpperN c = c - 32 := by unfold toUpperN; rw [if_pos h]
    have h2 : ¬ ((decide (97 ≤ c - 32) && decide (c - 32 ≤ 122)) = true) := by
      simp only [Bool.and_eq_true, decide_eq_true_eq] at h ⊢
      omega
    rw [h1]
    unfold toUpperN
    rw [if_neg h2]
  · have h1 : toUpperN c = c := by unfold toUpperN; rw [if_neg h]
    rw [h1, h1]

theorem toLowerN_idem (c : Nat) : toLowerN (toLowerN c) = toLowerN c := by
  by_cases h : (decide (65 ≤ c) && decide (c ≤ 90)) = true
  · have h1 : toLowerN c = c + 32 := by unfold toLowerN; rw [if_pos h]
    have h2 : ¬ ((decide (65 ≤ c + 32) && decide (c + 32 ≤ 90)) = true) := by
      simp only [Bool.and_eq_true, decide_eq_true_eq] at h ⊢
      omega
    rw [h1]
    unfold toLowerN
    rw [if_neg h2]
  · have h1 : toLowerN c = c := by unfold toLowerN; rw [if_neg h]
    rw [h1, h1]

theorem isJsSpaceN_eq_false_of_bounds {c : Nat}
    (h : ¬ c = 32 ∧ ¬ c = 9 ∧ ¬ c = 10 ∧ ¬ c = 11 ∧ ¬ c = 12 ∧ ¬ c = 13) :
    isJsSpaceN c = false := by
  simp only [isJsSpaceN, Bool.or_eq_false_iff, beq_eq_false_iff_ne, ne_eq]
  tauto

theorem isJsSpaceN_cases {c : Nat} (h : isJsSpaceN c = true) :
    c = 32 ∨ c = 9 ∨ c = 10 ∨ c = 11 ∨ c = 12 ∨ c = 13 := by
  have h' : ((((c = 32 ∨ c = 9) ∨ c = 10) ∨ c = 11) ∨ c = 12) ∨ c = 13 := by
    simpa only [isJsSpaceN, Bool.or_eq_true, beq_iff_eq] using h
  tauto

theorem space_toUpperN (c : Nat) : isJsSpaceN (toUpperN c) = isJsSpaceN c := by
  by_cases h : (decide (97 ≤ c) && decide (c ≤ 122)) = true
  · have h1 : toUpperN c = c - 32 := by unfold toUpperN; rw [if_pos h]
    simp only [Bool.and_eq_true, decide_eq_true_eq] at h
    rw [h1, isJsSpaceN_eq_false_of_bounds (by omega),
      isJsSpaceN_eq_false_of_bounds (by omega)]
  · have h1 : toUpperN c = c := by unfold toUpperN; rw [if_neg h]
    rw [h1]

theorem space_toLowerN (c : Nat) : isJsSpaceN (toLowerN c) = isJsSpaceN c := by
  by_cases h : (decide (65 ≤ c) && decide (c ≤ 90)) = true
  · have h1 : toLowerN c = c + 32 := by unfold toLowerN; rw [if_pos h]
    simp only [Bool.and_eq_true, decide_eq_true_eq] at h
    rw [h1, isJsSpaceN_eq_false_of_bounds (by omega),
      isJsSpaceN_eq_false_of_bounds (by omega)]
  · have h1 : toLowerN c = c := by unfold toLowerN; rw [if_neg h]
    rw [h1]

theorem toUpperN_space_fix {c : Nat} (h : isJsSpaceN c = true) : toUpperN c = c := by
  have hc := isJsSpaceN_cases h
  unfold toUpperN
  rw [if_neg]
  simp only [Bool.and_eq_true, decide_eq_true_eq]
  rcases hc with rfl | rfl | rfl | rfl | rfl | rfl <;> omega

theorem toLowerN_space_fix {c : Nat} (h : isJsSpaceN c = true) : toLowerN c = c := by
  have hc := isJsSpaceN_cases h
  unfold toLowerN
  rw [if_neg]
  simp only [Bool.and_eq_true, decide_eq_true_eq]
  rcases hc with rfl | rfl | rfl | rfl | rfl | rfl <;> omega

theorem isWordN_iff {c : Nat} :
    isWordN c = true ↔ ((65 ≤ c ∧ c ≤ 90) ∨ (97 ≤ c ∧ c ≤ 122) ∨ (48 ≤ c ∧ c ≤ 57) ∨ c = 95) := by
  simp only [isWordN, isAlphaN, isDigitN, Bool.or_eq_true, Bool.and_eq_true,
    decide_eq_true_eq, beq_iff_eq]
  tauto

theorem word_toUpperN (c : Nat) : isWordN (toUpperN c) = isWordN c := by
  by_cases h : (decide (97 ≤ c) && decide (c ≤ 122)) = true
  · have h1 : toUpperN c = c - 32 := by unfold toUpperN; rw [if_pos h]
    simp only [Bool.and_eq_true, decide_eq_true_eq] at h
    rw [h1]
    have hw1 : isWordN (c - 32) = true := isWordN_iff.mpr (Or.inl (by omega))
    have hw2 : isWordN c = true := isWordN_iff.mpr (Or.inr (Or.inl (by omega)))
    rw [hw1, hw2]
  · have h1 : toUpperN c = c := by unfold toUpperN; rw [if_neg h]
    rw [h1]

/-! ### dropWhile / dropRightWhile / trim structure -/

theorem dW_head_not (p : Nat → Bool) :
    ∀ (l : JsStr) {c : Nat} {cs : JsStr}, l.dropWhile p = c :: cs → p c = false := by
  intro l
  induction l with
  | nil => intro c cs h; exact absurd h (by simp)
  | cons a as ih =>
    intro c cs h
    rw [List.dropWhile_cons] at h
    split at h
    · exact ih h
    · rename_i hp
      cases h
      simpa using hp

theorem dW_of_head_false {p : Nat → Bool} {c : Nat} (cs : JsStr) (h : p c = false) :
    (c :: cs).dropWhile p = c :: cs := by
  simp [List.dropWhile_cons, h]

theorem dW_idem (p : Nat → Bool) (l : JsStr) :
    (l.dropWhile p).dropWhile p = l.dropWhile p := by
  cases h : l.dropWhile p with
  | nil => rfl
  | cons c cs => exact dW_of_head_false cs (dW_head_not p l h)

theorem dRW_cons_false {p : Nat → Bool} {c : Nat} {cs : JsStr}
    (h : ((dropRightWhile p cs).isEmpty && p c) = false) :
    dropRightWhile p (c :: cs) = c :: dropRightWhile p cs := by
  simp [dropRightWhile, h]

theorem dRW_idem (p : Nat → Bool) :
    ∀ l : JsStr, dropRightWhile p (dropRightWhile p l) = dropRightWhile p l := by
  intro l
  induction l with
  | nil => rfl
  | cons c cs ih =>
    cases h : ((dropRightWhile p cs).isEmpty && p c) with
    | true =>
      have hnil : dropRightWhile p (c :: cs) = [] := by simp [dropRightWhile, h]
      rw [hnil]
      rfl
    | false =>
      rw [dRW_cons_false h]
      have hcond : ((dropRightWhile p (dropRightWhile p cs)).isEmpty && p c) = false := by
        rw [ih]; exact h
      rw [dRW_cons_false hcond, ih]

theorem dRW_length_le (p : Nat → Bool) :
    ∀ l : JsStr, (dropRightWhile p l).length ≤ l.length := by
  intro l
  induction l with
  | nil => simp [dropRightWhile]
  | cons c cs ih =>
    simp only [dropRightWhile]
    split
    · simp
    · simpa using ih

theorem dW_eq_self_of_length (p : Nat → Bool) :
    ∀ l : JsStr, (l.dropWhile p).length = l.length → l.dropWhile p = l := by
  intro l
  induction l with
  | nil => intro _; rfl
  | cons c cs _ =>
    intro h
    by_cases hp : p c = true
    · rw [List.dropWhile_cons, if_pos hp] at h
      have := dropWhile_length_le p cs
      simp only [List.length_cons] at h
      omega
    · rw [List.dropWhile_cons, if_neg hp]

theorem dRW_eq_self_of_length (p : Nat → Bool) :
    ∀ l : JsStr, (dropRightWhile p l).length = l.length → dropRightWhile p l = l := by
  intro l
  induction l with
  | nil => intro _; rfl
  | cons c cs ih =>
    intro h
    cases hcond : ((dropRightWhile p cs).isEmpty && p c) with
    | true =>
      have hnil : dropRightWhile p (c :: cs) = [] := by simp [dropRightWhile, hcond]
      rw [hnil] at h
      simp at h
    | false =>
      rw [dRW_cons_false hcond] at h ⊢
      simp only [List.length_cons] at h
      rw [ih (by omega)]

theorem trim_fix_components (m : JsStr) (h : jsTrim m = m) :
    m.dropWhile isJsSpaceN = m ∧ dropRightWhile isJsSpaceN m = m := by
  unfold jsTrim at h
  have hle1 : (m.dropWhile isJsSpaceN).length ≤ m.length := dropWhile_length_le _ m
  have hle2 : (dropRightWhile isJsSpaceN (m.dropWhile isJsSpaceN)).length
      ≤ (m.dropWhile isJsSpaceN).length := dRW_length_le _ _
  have hlen : (dropRightWhile isJsSpaceN (m.dropWhile isJsSpaceN)).length = m.length := by
    rw [h]
  have hdw : m.dropWhile isJsSpaceN = m :=
    dW_eq_self_of_length _ m (by omega)
  rw [hdw] at h
  exact ⟨hdw, h⟩

theorem dRW_head?_or_nil (p : Nat → Bool) (l : JsStr) :
    dropRightWhile p l = [] ∨ (dropRightWhile p l).head? = l.head? := by
  cases l with
  | nil => exact Or.inl rfl
  | cons c cs =>
    simp only [dropRightWhile]
    split
    · exact Or.inl rfl
    · exact Or.inr rfl

theorem jsTrim_idem (l : JsStr) : jsTrim (jsTrim l) = jsTrim l := by
  unfold jsTrim
  have hdwT : (dropRightWhile isJsSpaceN (l.dropWhile isJsSpaceN)).dropWhile isJsSpaceN
      = dropRightWhile isJsSpaceN (l.dropWhile isJsSpaceN) := by
    rcases dRW_head?_or_nil isJsSpaceN (l.dropWhile isJsSpaceN) with h | h
    · rw [h]; rfl
    · cases hT : dropRightWhile isJsSpaceN (l.dropWhile isJsSpaceN) with
      | nil => rfl
      | cons c cs =>
        rw [hT] at h
        cases hAshape : l.dropWhile isJsSpaceN with
        | nil => rw [hAshape] at h; simp at h
        | cons a as =>
          rw [hAshape] at h
          simp only [List.head?_cons] at h
          have hca : c = a := by injection h
          have hna : isJsSpaceN a = false := dW_head_not isJsSpaceN l hAshape
          exact dW_of_head_false cs (hca ▸ hna)
  rw [hdwT, dRW_idem]


/-! ### Whitespace-collapse structure -/

theorem collapseAux_length_le : ∀ (l : JsStr) (b : Bool), (collapseAux b l).length ≤ l.length := by
  intro l
  induction l with
  | nil => intro b; simp [collapseAux]
  | cons c rest ih =>
    intro b
    simp only [collapseAux]
    cases hsp : isJsSpaceN c with
    | true =>
      simp only [hsp, if_true]
      cases b with
      | true =>
        simp only [if_true, List.length_cons]
        exact Nat.le_succ_of_le (ih true)
      | false =>
        simp only [Bool.false_eq_true, if_false, List.length_cons]
        exact Nat.succ_le_succ (ih true)
    | false =>
      simp only [hsp, Bool.false_eq_true, if_false, List.length_cons]
      exact Nat.succ_le_succ (ih false)

theorem collapseAux_idem : ∀ (l : JsStr) (b : Bool),
    collapseAux b (collapseAux b l) = collapseAux b l := by
  intro l
  induction l with
  | nil => intro b; rfl
  | cons c rest ih =>
    intro b
    cases hsp : isJsSpaceN c with
    | true =>
      cases b with
      | true =>
        show collapseAux true (collapseAux true (c :: rest)) = collapseAux true (c :: rest)
        have h1 : collapseAux true (c :: rest) = collapseAux true rest := by
          simp [collapseAux, hsp]
        rw [h1, ih]
      | false =>
        have h1 : collapseAux false (c :: rest) = 32 :: collapseAux true rest := by
          simp [collapseAux, hsp]
        rw [h1]
        have hsp32 : isJsSpaceN 32 = true := by decide
        have h2 : collapseAux false (32 :: collapseAux true rest)
            = 32 :: collapseAux true (collapseAux true rest) := by
          simp [collapseAux, hsp32]
        rw [h2, ih]
    | false =>
      have hstep : ∀ (b' : Bool) (m : JsStr),
          collapseAux b' (c :: m) = c :: collapseAux false m := by
        intro b' m
        simp [collapseAux, hsp]
      rw [hstep b rest, hstep b (collapseAux false rest), ih false]

theorem collapseAux_nil_all_space :
    ∀ l : JsStr, collapseAux true l = [] → ∀ c ∈ l, isJsSpaceN c = true := by
  intro l
  induction l with
  | nil => intro _ c hc; simp at hc
  | cons a rest ih =>
    intro h c hc
    cases hsp : isJsSpaceN a with
    | true =>
      have h1 : collapseAux true (a :: rest) = collapseAux true rest := by
        simp [collapseAux, hsp]
      rw [h1] at h
      rcases List.mem_cons.mp hc with rfl | hc'
      · exact hsp
      · exact ih h c hc'
    | false =>
      have h1 : collapseAux true (a :: rest) = a :: collapseAux false rest := by
        simp [collapseAux, hsp]
      rw [h1] at h
      exact absurd h (by simp)

/-- Same length and the same whitespace skeleton: positions agree on
    space-ness, and space units are preserved verbatim. -/
inductive SpSame : JsStr → JsStr → Prop where
  | nil : SpSame [] []
  | space {c : Nat} {l l' : JsStr} (h : isJsSpaceN c = true)
      (rest : SpSame l l') : SpSame (c :: l) (c :: l')
  | nonsp {c c' : Nat} {l l' : JsStr} (h : isJsSpaceN c = false)
      (h' : isJsSpaceN c' = false) (rest : SpSame l l') : SpSame (c :: l) (c' :: l')

theorem spSame_self : ∀ l : JsStr, SpSame l l := by
  intro l
  induction l with
  | nil => exact .nil
  | cons c rest ih =>
    cases hsp : isJsSpaceN c with
    | true => exact .space hsp ih
    | false => exact .nonsp hsp hsp ih

theorem SpSame.trans : ∀ {a b c : JsStr}, SpSame a b → SpSame b c → SpSame a c := by
  intro a b c hab
  induction hab generalizing c with
  | nil => intro h; exact h
  | space hsp _ ih =>
    intro hbc
    cases hbc with
    | space hsp2 rest2 => exact .space hsp (ih rest2)
    | nonsp h1 h2 rest2 => exact absurd hsp (by simp [h1])
  | nonsp h1 h2 _ ih =>
    intro hbc
    cases hbc with
    | space hsp2 rest2 => exact absurd hsp2 (by simp [h2])
    | nonsp h3 h4 rest2 => exact .nonsp h1 h4 (ih rest2)

theorem SpSame.length_eq : ∀ {a b : JsStr}, SpSame a b → a.length = b.length := by
  intro a b h
  induction h with
  | nil => rfl
  | space _ _ ih => simp [ih]
  | nonsp _ _ _ ih => simp [ih]

theorem SpSame.dW_fix : ∀ {a b : JsStr}, SpSame a b →
    a.dropWhile isJsSpaceN = a → b.dropWhile isJsSpaceN = b := by
  intro a b h
  cases h with
  | nil => intro _; rfl
  | space hsp rest =>
    intro hfix
    rename_i c l l'
    rw [List.dropWhile_cons, if_pos hsp] at hfix
    have := dropWhile_length_le isJsSpaceN l
    have hlen : (l.dropWhile isJsSpaceN).length = l.length + 1 := by
      rw [hfix]; rfl
    omega
  | nonsp h1 h2 rest =>
    intro _
    exact dW_of_head_false _ h2

theorem SpSame.dRW_fix : ∀ {a b : JsStr}, SpSame a b →
    dropRightWhile isJsSpaceN a = a → dropRightWhile isJsSpaceN b = b := by
  intro a b h
  induction h with
  | nil => intro _; rfl
  | @space c l l' hsp rest ih =>
    intro hfix
    cases hcond : ((dropRightWhile isJsSpaceN l).isEmpty && isJsSpaceN c) with
    | true =>
      have hnil : dropRightWhile isJsSpaceN (c :: l) = [] := by
        simp [dropRightWhile, hcond]
      rw [hnil] at hfix
      exact absurd hfix.symm (List.cons_ne_nil c l)
    | false =>
      rw [dRW_cons_false hcond] at hfix
      have htl : dropRightWhile isJsSpaceN l = l := by
        injection hfix
      have htl' : dropRightWhile isJsSpaceN l' = l' := ih htl
      have hne : l ≠ [] := by
        intro hnil
        rw [hnil] at hcond htl
        simp [dropRightWhile, hsp] at hcond
      have hne' : l' ≠ [] := by
        intro hnil
        rw [hnil] at rest
        cases rest
        exact hne (Eq.refl [])
      have hcond' : ((dropRightWhile isJsSpaceN l').isEmpty && isJsSpaceN c) = false := by
        rw [htl']
        cases hl' : l'.isEmpty with
        | true => exact absurd (List.isEmpty_iff.mp hl') hne'
        | false => simp
      rw [dRW_cons_false hcond', htl']
  | @nonsp c c' l l' h1 h2 rest ih =>
    intro hfix
    cases hcond : ((dropRightWhile isJsSpaceN l).isEmpty && isJsSpaceN c) with
    | true =>
      rw [Bool.and_eq_true] at hcond
      exact absurd hcond.2 (by simp [h1])
    | false =>
      rw [dRW_cons_false hcond] at hfix
      have htl : dropRightWhile isJsSpaceN l = l := by
        injection hfix
      have htl' : dropRightWhile isJsSpaceN l' = l' := ih htl
      have hcond' : ((dropRightWhile isJsSpaceN l').isEmpty && isJsSpaceN c') = false := by
        simp [h2]
      rw [dRW_cons_false hcond', htl']

theorem SpSame.collapse_fix : ∀ {a b : JsStr}, SpSame a b → ∀ fl : Bool,
    collapseAux fl a = a → collapseAux fl b = b := by
  intro a b h
  induction h with
  | nil => intro _ _; rfl
  | @space c l l' hsp rest ih =>
    intro fl hfix
    cases fl with
    | true =>
      have h1 : collapseAux true (c :: l) = collapseAux true l := by
        simp [collapseAux, hsp]
      rw [h1] at hfix
      have := collapseAux_length_le l true
      have hlen : (collapseAux true l).length = l.length + 1 := by rw [hfix]; rfl
      omega
    | false =>
      have h1 : collapseAux false (c :: l) = 32 :: collapseAux true l := by
        simp [collapseAux, hsp]
      rw [h1] at hfix
      have hc32 : (32 : Nat) = c := by injection hfix
      have htl : collapseAux true l = l := by injection hfix
      have h2 : collapseAux false (c :: l') = 32 :: collapseAux true l' := by
        simp [collapseAux, hsp]
      rw [h2, ih true htl, hc32]
  | @nonsp c c' l l' h1 h2 rest ih =>
    intro fl hfix
    have hstep : ∀ (x : Nat) (m : JsStr), isJsSpaceN x = false →
        collapseAux fl (x :: m) = x :: collapseAux false m := by
      intro x m hx
      simp [collapseAux, hx]
    rw [hstep c l h1] at hfix
    have htl : collapseAux false l = l := by injection hfix
    rw [hstep c' l' h2, ih false htl]

theorem head_false_of_dW_fix {p : Nat → Bool} {c : Nat} {t : JsStr}
    (h : (c :: t).dropWhile p = c :: t) : p c = false := by
  cases hp : p c with
  | true =>
    rw [List.dropWhile_cons, if_pos hp] at h
    have := dropWhile_length_le p t
    have hlen : (t.dropWhile p).length = t.length + 1 := by rw [h]; rfl
    omega
  | false => rfl

theorem word_not_space {c : Nat} (h : isWordN c = true) : isJsSpaceN c = false := by
  rcases isWordN_iff.mp h with h1 | h1 | h1 | h1 <;>
    exact isJsSpaceN_eq_false_of_bounds (by omega)

theorem space_not_word {c : Nat} (h : isJsSpaceN c = true) : isWordN c = false := by
  cases hw : isWordN c with
  | false => rfl
  | true => rw [word_not_space hw] at h; exact absurd h (by simp)

theorem dW_collapse_fix :
    ∀ (t : JsStr) (b : Bool), t.dropWhile isJsSpaceN = t →
      (collapseAux b t).dropWhile isJsSpaceN = collapseAux b t := by
  intro t b h
  cases t with
  | nil => rfl
  | cons c t' =>
    have hc : isJsSpaceN c = false := head_false_of_dW_fix h
    have hstep : collapseAux b (c :: t') = c :: collapseAux false t' := by
      simp [collapseAux, hc]
    rw [hstep]
    exact dW_of_head_false _ hc

theorem dRW_collapse_fix :
    ∀ (t : JsStr) (b : Bool), dropRightWhile isJsSpaceN t = t →
      dropRightWhile isJsSpaceN (collapseAux b t) = collapseAux b t := by
  intro t
  induction t with
  | nil => intro b _; rfl
  | cons c t' ih =>
    intro b hfix
    cases hcond : ((dropRightWhile isJsSpaceN t').isEmpty && isJsSpaceN c) with
    | true =>
      have hnil : dropRightWhile isJsSpaceN (c :: t') = [] := by
        simp [dropRightWhile, hcond]
      rw [hnil] at hfix
      exact absurd hfix.symm (List.cons_ne_nil c t')
    | false =>
      rw [dRW_cons_false hcond] at hfix
      have htl : dropRightWhile isJsSpaceN t' = t' := by injection hfix
      cases hsp : isJsSpaceN c with
      | true =>
        have hne' : t' ≠ [] := by
          intro hnil
          rw [htl, hsp] at hcond
          rw [hnil] at hcond
          simp at hcond
        cases b with
        | true =>
          have hstep : collapseAux true (c :: t') = collapseAux true t' := by
            simp [collapseAux, hsp]
          rw [hstep]
          exact ih true htl
        | false =>
          have hstep : collapseAux false (c :: t') = 32 :: collapseAux true t' := by
            simp [collapseAux, hsp]
          rw [hstep]
          have hX := ih true htl
          have hXne : collapseAux true t' ≠ [] := by
            intro hnil
            have hall := collapseAux_nil_all_space t' hnil
            have : dropRightWhile isJsSpaceN t' = [] :=
              (dropRightWhile_eq_nil_iff isJsSpaceN t').mpr hall
            rw [htl] at this
            exact hne' this
          have hcond2 : ((dropRightWhile isJsSpaceN (collapseAux true t')).isEmpty
              && isJsSpaceN 32) = false := by
            rw [hX]
            cases he : (collapseAux true t').isEmpty with
            | true => exact absurd (List.isEmpty_iff.mp he) hXne
            | false => simp
          rw [dRW_cons_false hcond2, hX]
      | false =>
        have hstep : collapseAux b (c :: t') = c :: collapseAux false t' := by
          simp [collapseAux, hsp]
        rw [hstep]
        have hX := ih false htl
        have hcond2 : ((dropRightWhile isJsSpaceN (collapseAux false t')).isEmpty
            && isJsSpaceN c) = false := by
          simp [hsp]
        rw [dRW_cons_false hcond2, hX]

theorem spSame_map_toLowerN : ∀ l : JsStr, SpSame l (l.map toLowerN) := by
  intro l
  induction l with
  | nil => exact .nil
  | cons c rest ih =>
    rw [List.map_cons]
    cases hsp : isJsSpaceN c with
    | true => rw [toLowerN_space_fix hsp]; exact .space hsp ih
    | false => exact .nonsp hsp (by rw [space_toLowerN]; exact hsp) ih

theorem spSame_capFirst : ∀ l : JsStr, SpSame l (capFirst l) := by
  intro l
  cases l with
  | nil => exact .nil
  | cons c rest =>
    show SpSame (c :: rest) (toUpperN c :: rest)
    cases hsp : isJsSpaceN c with
    | true => rw [toUpperN_space_fix hsp]; exact .space hsp (spSame_self rest)
    | false =>
      exact .nonsp hsp (by rw [space_toUpperN]; exact hsp) (spSame_self rest)

theorem spSame_capAfterWs : ∀ l : JsStr, SpSame l (capAfterWs l)
  | [] => .nil
  | [c] => spSame_self [c]
  | c :: d :: rest => by
    cases hsp : isJsSpaceN c with
    | true =>
      have hstep : capAfterWs (c :: d :: rest) = c :: toUpperN d :: capAfterWs rest := by
        simp [capAfterWs, hsp]
      rw [hstep]
      refine .space hsp ?_
      cases hd : isJsSpaceN d with
      | true =>
        rw [toUpperN_space_fix hd]
        exact .space hd (spSame_capAfterWs rest)
      | false =>
        exact .nonsp hd (by rw [space_toUpperN]; exact hd) (spSame_capAfterWs rest)
    | false =>
      have hstep : capAfterWs (c :: d :: rest) = c :: capAfterWs (d :: rest) := by
        simp [capAfterWs, hsp]
      rw [hstep]
      exact .nonsp hsp hsp (spSame_capAfterWs (d :: rest))

theorem spSame_titleAux : ∀ (l : JsStr) (b : Bool), SpSame l (titleAux b l) := by
  intro l
  induction l with
  | nil => intro b; exact .nil
  | cons c rest ih =>
    intro b
    show SpSame (c :: rest) ((if !b && isWordN c then toUpperN c else c) :: titleAux (isWordN c) rest)
    cases hsp : isJsSpaceN c with
    | true =>
      rw [space_not_word hsp]
      simp only [Bool.and_false, Bool.false_eq_true, if_false]
      exact .space hsp (ih false)
    | false =>
      by_cases hcond : (!b && isWordN c) = true
      · rw [if_pos hcond]
        exact .nonsp hsp (by rw [space_toUpperN]; exact hsp) (ih (isWordN c))
      · rw [if_neg hcond]
        exact .nonsp hsp hsp (ih (isWordN c))

theorem spSame_jsTrim_fix {a b : JsStr} (h : SpSame a b) (ha : jsTrim a = a) :
    jsTrim b = b := by
  obtain ⟨h1, h2⟩ := trim_fix_components a ha
  have h1' := SpSame.dW_fix h h1
  have h2' := SpSame.dRW_fix h h2
  unfold jsTrim
  rw [h1', h2']

theorem capAfterWs_head? : ∀ m : JsStr, (capAfterWs m).head? = m.head?
  | [] => rfl
  | [c] => rfl
  | c :: d :: rest => by
    cases hsp : isJsSpaceN c with
    | true => simp [capAfterWs, hsp]
    | false => simp [capAfterWs, hsp]

theorem capA_idem : ∀ m : JsStr, capAfterWs (capAfterWs m) = capAfterWs m
  | [] => rfl
  | [c] => rfl
  | c :: d :: rest => by
    cases hsp : isJsSpaceN c with
    | true =>
      have hstep : capAfterWs (c :: d :: rest) = c :: toUpperN d :: capAfterWs rest := by
        simp [capAfterWs, hsp]
      rw [hstep]
      have houter : capAfterWs (c :: toUpperN d :: capAfterWs rest)
          = c :: toUpperN (toUpperN d) :: capAfterWs (capAfterWs rest) := by
        simp [capAfterWs, hsp]
      rw [houter, toUpperN_idem, capA_idem rest]
    | false =>
      have hstep : capAfterWs (c :: d :: rest) = c :: capAfterWs (d :: rest) := by
        simp [capAfterWs, hsp]
      rw [hstep]
      cases hshape : capAfterWs (d :: rest) with
      | nil =>
        have := capAfterWs_head? (d :: rest)
        rw [hshape] at this
        simp at this
      | cons e es =>
        have hhead := capAfterWs_head? (d :: rest)
        rw [hshape] at hhead
        simp only [List.head?_cons] at hhead
        have hed : e = d := by injection hhead
        have houter : capAfterWs (c :: e :: es) = c :: capAfterWs (e :: es) := by
          simp [capAfterWs, hsp]
        rw [houter, ← hshape, capA_idem (d :: rest)]

theorem capFirst_capA_capFirst (X : JsStr) :
    capFirst (capAfterWs (capFirst X)) = capAfterWs (capFirst X) := by
  cases X with
  | nil => rfl
  | cons c xs =>
    show capFirst (capAfterWs (toUpperN c :: xs)) = capAfterWs (toUpperN c :: xs)
    cases hshape : capAfterWs (toUpperN c :: xs) with
    | nil => rfl
    | cons e es =>
      have hhead := capAfterWs_head? (toUpperN c :: xs)
      rw [hshape] at hhead
      simp only [List.head?_cons] at hhead
      have hed : e = toUpperN c := by injection hhead
      show toUpperN e :: es = e :: es
      rw [hed, toUpperN_idem]

/-! ### Idempotence of the individual formatters -/

theorem text_idem (v : JsStr) : formatters.text (formatters.text v) = formatters.text v :=
  jsTrim_idem v

theorem jsTrim_collapse_fix (t : JsStr) (b : Bool) (h : jsTrim t = t) :
    jsTrim (collapseAux b t) = collapseAux b t := by
  obtain ⟨h1, h2⟩ := trim_fix_components t h
  show dropRightWhile isJsSpaceN ((collapseAux b t).dropWhile isJsSpaceN)
      = collapseAux b t
  rw [dW_collapse_fix t b h1, dRW_collapse_fix t b h2]

theorem number_idem (v : JsStr) :
    formatters.number (formatters.number v) = formatters.number v := by
  unfold formatters.number
  rw [List.filter_eq_self]
  intro a ha
  exact (List.mem_filter.mp ha).2

theorem email_idem (v : JsStr) :
    formatters.email (formatters.email v) = formatters.email v := by
  unfold formatters.email
  have hT : jsTrim (jsTrim v) = jsTrim v := jsTrim_idem v
  have hE : jsTrim ((jsTrim v).map toLowerN) = (jsTrim v).map toLowerN :=
    spSame_jsTrim_fix (spSame_map_toLowerN (jsTrim v)) hT
  rw [hE, List.map_map]
  exact List.map_congr_left (fun a _ => toLowerN_idem a)

theorem businessName_idem (v : JsStr) :
    formatters.businessName (formatters.businessName v) = formatters.businessName v := by
  unfold formatters.businessName collapseWs
  have hT : jsTrim (jsTrim v) = jsTrim v := jsTrim_idem v
  rw [jsTrim_collapse_fix (jsTrim v) false hT]
  exact collapseAux_idem (jsTrim v) false

theorem personName_idem (v : JsStr) :
    formatters.personName (formatters.personName v) = formatters.personName v := by
  unfold formatters.personName collapseWs
  have hT : jsTrim (jsTrim v) = jsTrim v := jsTrim_idem v
  set X := collapseAux false (jsTrim v) with hX
  have hXtrim : jsTrim X = X := jsTrim_collapse_fix (jsTrim v) false hT
  have hXcol : collapseAux false X = X := collapseAux_idem (jsTrim v) false
  have hss : SpSame X (capAfterWs (capFirst X)) :=
    SpSame.trans (spSame_capFirst X) (spSame_capAfterWs (capFirst X))
  have hYtrim : jsTrim (capAfterWs (capFirst X)) = capAfterWs (capFirst X) :=
    spSame_jsTrim_fix hss hXtrim
  have hYcol : collapseAux false (capAfterWs (capFirst X)) = capAfterWs (capFirst X) :=
    SpSame.collapse_fix hss false hXcol
  rw [hYtrim, hYcol, capFirst_capA_capFirst, capA_idem]

theorem titleAux_idem : ∀ (m : JsStr) (b : Bool),
    titleAux b (titleAux b m) = titleAux b m := by
  intro m
  induction m with
  | nil => intro b; rfl
  | cons c rest ih =>
    intro b
    by_cases hcond : (!b && isWordN c) = true
    · have hstep : titleAux b (c :: rest) = toUpperN c :: titleAux (isWordN c) rest := by
        simp [titleAux, hcond]
      rw [hstep]
      have hw : isWordN (toUpperN c) = isWordN c := word_toUpperN c
      have hcond2 : (!b && isWordN (toUpperN c)) = true := by rw [hw]; exact hcond
      have houter : titleAux b (toUpperN c :: titleAux (isWordN c) rest)
          = toUpperN (toUpperN c) :: titleAux (isWordN (toUpperN c)) (titleAux (isWordN c) rest) := by
        simp [titleAux, hcond2]
      rw [houter, toUpperN_idem, hw, ih (isWordN c)]
    · have hstep : titleAux b (c :: rest) = c :: titleAux (isWordN c) rest := by
        simp only [titleAux]
        rw [if_neg hcond]
      rw [hstep]
      have houter : titleAux b (c :: titleAux (isWordN c) rest)
          = c :: titleAux (isWordN c) (titleAux (isWordN c) rest) := by
        simp only [titleAux]
        rw [if_neg hcond]
      rw [houter, ih (isWordN c)]

theorem streetAddress_idem (v : JsStr) :
    formatters.streetAddress (formatters.streetAddress v) = formatters.streetAddress v := by
  unfold formatters.streetAddress collapseWs
  have hT : jsTrim (jsTrim v) = jsTrim v := jsTrim_idem v
  set X := collapseAux false (jsTrim v) with hX
  have hXtrim : jsTrim X = X := jsTrim_collapse_fix (jsTrim v) false hT
  have hXcol : collapseAux false X = X := collapseAux_idem (jsTrim v) false
  have hss : SpSame X (titleAux false X) := spSame_titleAux X false
  have hZtrim : jsTrim (titleAux false X) = titleAux false X :=
    spSame_jsTrim_fix hss hXtrim
  have hZcol : collapseAux false (titleAux false X) = titleAux false X :=
    SpSame.collapse_fix hss false hXcol
  rw [hZtrim, hZcol, titleAux_idem]

theorem space_not_digit {c : Nat} (h : isJsSpaceN c = true) : isDigitN c = false := by
  have hc := isJsSpaceN_cases h
  rcases hc with rfl | rfl | rfl | rfl | rfl | rfl <;> decide

theorem filter_eq_self_of_all {p : Nat → Bool} {l : JsStr}
    (h : ∀ c ∈ l, p c = true) : l.filter p = l :=
  List.filter_eq_self.mpr h

theorem cons_headD_drop {l : JsStr} (h : l ≠ []) : l = l.headD 0 :: l.drop 1 := by
  cases l with
  | nil => exact absurd rfl h
  | cons c cs => rfl

theorem phone_idem (v : JsStr) :
    formatters.phone (formatters.phone v) = formatters.phone v := by
  have hcl : ∀ c ∈ v.filter isDigitN, isDigitN c = true :=
    fun c hc => (List.mem_filter.mp hc).2
  by_cases h10 : ((v.filter isDigitN).length == 10) = true
  · have hout : formatters.phone v
        = S "(" ++ (v.filter isDigitN).take 3 ++ S ") "
          ++ ((v.filter isDigitN).drop 3).take 3 ++ S "-" ++ (v.filter isDigitN).drop 6 := by
      simp only [formatters.phone, h10, if_true]
    have hfil : (formatters.phone v).filter isDigitN = v.filter isDigitN := by
      rw [hout]
      rw [List.filter_append, List.filter_append, List.filter_append,
        List.filter_append, List.filter_append]
      have e1 : (S "(").filter isDigitN = [] := by decide
      have e2 : (S ") ").filter isDigitN = [] := by decide
      have e3 : (S "-").filter isDigitN = [] := by decide
      have f1 : ((v.filter isDigitN).take 3).filter isDigitN
          = (v.filter isDigitN).take 3 :=
        filter_eq_self_of_all (fun c hc => hcl c (List.mem_of_mem_take hc))
      have f2 : (((v.filter isDigitN).drop 3).take 3).filter isDigitN
          = ((v.filter isDigitN).drop 3).take 3 :=
        filter_eq_self_of_all
          (fun c hc => hcl c (List.mem_of_mem_drop (List.mem_of_mem_take hc)))
      have f3 : ((v.filter isDigitN).drop 6).filter isDigitN
          = (v.filter isDigitN).drop 6 :=
        filter_eq_self_of_all (fun c hc => hcl c (List.mem_of_mem_drop hc))
      rw [e1, e2, e3, f1, f2, f3]
      simp only [List.nil_append, List.append_nil, List.append_assoc]
      have hd6 : (v.filter isDigitN).drop 6 = ((v.filter isDigitN).drop 3).drop 3 := by
        rw [List.drop_drop]
      rw [hd6, List.take_append_drop, List.take_append_drop]
    show formatters.phone (formatters.phone v) = formatters.phone v
    rw [show formatters.phone (formatters.phone v)
        = (if ((formatters.phone v).filter isDigitN).length == 10 then
            S "(" ++ ((formatters.phone v).filter isDigitN).take 3 ++ S ") "
            ++ (((formatters.phone v).filter isDigitN).drop 3).take 3 ++ S "-"
            ++ ((formatters.phone v).filter isDigitN).drop 6
          else if ((formatters.phone v).filter isDigitN).length == 11
              && ((formatters.phone v).filter isDigitN).headD 0 == 49 then
            S "+1 (" ++ (((formatters.phone v).filter isDigitN).drop 1).take 3 ++ S ") "
            ++ (((formatters.phone v).filter isDigitN).drop 4).take 3 ++ S "-"
            ++ ((formatters.phone v).filter isDigitN).drop 7
          else formatters.phone v) from rfl]
    rw [hfil, if_pos h10, ← hout]
  · by_cases h11 : ((v.filter isDigitN).length == 11
        && (v.filter isDigitN).headD 0 == 49) = true
    · have hout : formatters.phone v
          = S "+1 (" ++ ((v.filter isDigitN).drop 1).take 3 ++ S ") "
            ++ ((v.filter isDigitN).drop 4).take 3 ++ S "-"
            ++ (v.filter isDigitN).drop 7 := by
        simp only [formatters.phone, h10, Bool.false_eq_true, if_false, h11, if_true]
      rw [Bool.and_eq_true, beq_iff_eq, beq_iff_eq] at h11
      have hfil : (formatters.phone v).filter isDigitN = v.filter isDigitN := by
        rw [hout]
        rw [List.filter_append, List.filter_append, List.filter_append,
          List.filter_append, List.filter_append]
        have e1 : (S "+1 (").filter isDigitN = [49] := by decide
        have e2 : (S ") ").filter isDigitN = [] := by decide
        have e3 : (S "-").filter isDigitN = [] := by decide
        have f1 : (((v.filter isDigitN).drop 1).take 3).filter isDigitN
            = ((v.filter isDigitN).drop 1).take 3 :=
          filter_eq_self_of_all
            (fun c hc => hcl c (List.mem_of_mem_drop (List.mem_of_mem_take hc)))
        have f2 : (((v.filter isDigitN).drop 4).take 3).filter isDigitN
            = ((v.filter isDigitN).drop 4).take 3 :=
          filter_eq_self_of_all
            (fun c hc => hcl c (List.mem_of_mem_drop (List.mem_of_mem_take hc)))
        have f3 : ((v.filter isDigitN).drop 7).filter isDigitN
            = (v.filter isDigitN).drop 7 :=
          filter_eq_self_of_all (fun c hc => hcl c (List.mem_of_mem_drop hc))
        rw [e1, e2, e3, f1, f2, f3]
        simp only [List.nil_append, List.append_nil, List.append_assoc,
          List.singleton_append]
        have hd4 : (v.filter isDigitN).drop 4 = ((v.filter isDigitN).drop 1).drop 3 := by
          rw [List.drop_drop]
        have hd7 : (v.filter isDigitN).drop 7
            = (((v.filter isDigitN).drop 1).drop 3).drop 3 := by
          rw [List.drop_drop, List.drop_drop]
        rw [hd4, hd7, List.take_append_drop, List.cons_append, List.take_append_drop]
        have hne : v.filter isDigitN ≠ [] := by
          intro hnil
          rw [hnil] at h11
          simp at h11
        conv_rhs => rw [cons_headD_drop hne]
        rw [h11.2]
      show formatters.phone (formatters.phone v) = formatters.phone v
      rw [show formatters.phone (formatters.phone v)
          = (if ((formatters.phone v).filter isDigitN).length == 10 then
              S "(" ++ ((formatters.phone v).filter isDigitN).take 3 ++ S ") "
              ++ (((formatters.phone v).filter isDigitN).drop 3).take 3 ++ S "-"
              ++ ((formatters.phone v).filter isDigitN).drop 6
            else if ((formatters.phone v).filter isDigitN).length == 11
                && ((formatters.phone v).filter isDigitN).headD 0 == 49 then
              S "+1 (" ++ (((formatters.phone v).filter isDigitN).drop 1).take 3 ++ S ") "
              ++ (((formatters.phone v).filter isDigitN).drop 4).take 3 ++ S "-"
              ++ ((formatters.phone v).filter isDigitN).drop 7
            else formatters.phone v) from rfl]
      rw [hfil, if_neg (by rw [h11.1]; decide)]
      rw [if_pos (by rw [Bool.and_eq_true, beq_iff_eq, beq_iff_eq]; exact h11), ← hout]
    · have hout : formatters.phone v = v := by
        simp only [formatters.phone, h10, Bool.false_eq_true, if_false, h11]
      rw [hout]
      exact hout

theorem filter_group4 (p : Nat → Bool) (hp32 : p 32 = false) :
    ∀ m : JsStr, (formatters.group4 m).filter p = m.filter p
  | [] => rfl
  | [a] => rfl
  | [a, b] => rfl
  | [a, b, c] => rfl
  | a :: b :: c :: d :: rest => by
    show (a :: b :: c :: d :: 32 :: formatters.group4 rest).filter p = _
    simp only [List.filter_cons, hp32, Bool.false_eq_true, if_false,
      filter_group4 p hp32 rest]

theorem dRW_subset {p : Nat → Bool} :
    ∀ {l : JsStr} {c : Nat}, c ∈ dropRightWhile p l → c ∈ l := by
  intro l
  induction l with
  | nil => intro c hc; exact absurd hc (by simp [dropRightWhile])
  | cons a as ih =>
    intro c hc
    simp only [dropRightWhile] at hc
    split at hc
    · exact absurd hc (by simp)
    · rcases List.mem_cons.mp hc with rfl | hc'
      · exact List.mem_cons_self _ _
      · exact List.mem_cons.mpr (Or.inr (ih hc'))

theorem filter_digit_dW (z : JsStr) :
    (z.dropWhile isJsSpaceN).filter isDigitN = z.filter isDigitN := by
  induction z with
  | nil => rfl
  | cons c t ih =>
    cases hsp : isJsSpaceN c with
    | true =>
      rw [List.dropWhile_cons, if_pos hsp, ih, List.filter_cons,
        space_not_digit hsp]
      simp
    | false =>
      rw [List.dropWhile_cons, if_neg (by simp [hsp])]

theorem filter_digit_dRW : ∀ z : JsStr,
    (dropRightWhile isJsSpaceN z).filter isDigitN = z.filter isDigitN := by
  intro z
  induction z with
  | nil => rfl
  | cons c t ih =>
    cases hcond : ((dropRightWhile isJsSpaceN t).isEmpty && isJsSpaceN c) with
    | true =>
      have hnil : dropRightWhile isJsSpaceN (c :: t) = [] := by
        simp [dropRightWhile, hcond]
      rw [hnil]
      rw [Bool.and_eq_true, List.isEmpty_iff] at hcond
      have hall : ∀ x ∈ t, isJsSpaceN x = true :=
        (dropRightWhile_eq_nil_iff isJsSpaceN t).mp hcond.1
      have ht : t.filter isDigitN = [] := by
        rw [List.filter_eq_nil_iff]
        intro a ha
        simp [space_not_digit (hall a ha)]
      rw [List.filter_cons, space_not_digit hcond.2]
      simp [ht]
    | false =>
      rw [dRW_cons_false hcond, List.filter_cons, List.filter_cons, ih]

theorem filter_digit_jsTrim (z : JsStr) :
    (jsTrim z).filter isDigitN = z.filter isDigitN := by
  unfold jsTrim
  rw [filter_digit_dRW, filter_digit_dW]

theorem creditCard_idem (v : JsStr) :
    formatters.creditCard (formatters.creditCard v) = formatters.creditCard v := by
  unfold formatters.creditCard
  have hfil : (jsTrim (formatters.group4 (v.filter isDigitN))).filter isDigitN
      = v.filter isDigitN := by
    rw [filter_digit_jsTrim, filter_group4 isDigitN (by decide),
      filter_eq_self_of_all (fun c hc => (List.mem_filter.mp hc).2)]
  rw [hfil]

theorem isUserCharN_ranges {c : Nat} (h : formatters.isUserCharN c = true) :
    (97 ≤ c ∧ c ≤ 122) ∨ (48 ≤ c ∧ c ≤ 57) ∨ c = 95 ∨ c = 45 := by
  simp only [formatters.isUserCharN, isDigitN, Bool.or_eq_true, Bool.and_eq_true,
    decide_eq_true_eq, beq_iff_eq] at h
  tauto

theorem toLowerN_fix_of_userChar {c : Nat} (h : formatters.isUserCharN c = true) :
    toLowerN c = c := by
  unfold toLowerN
  rw [if_neg]
  simp only [Bool.and_eq_true, decide_eq_true_eq]
  rcases isUserCharN_ranges h with h1 | h1 | h1 | h1 <;> omega

theorem username_idem (v : JsStr) :
    formatters.username (formatters.username v) = formatters.username v := by
  unfold formatters.username
  set y := (v.map toLowerN).filter formatters.isUserCharN with hy
  set out := dropRightWhile formatters.isUhN (y.dropWhile formatters.isUhN) with hout
  have hmem : ∀ c ∈ out, formatters.isUserCharN c = true := by
    intro c hc
    have h1 : c ∈ y.dropWhile formatters.isUhN := dRW_subset hc
    have h2 : c ∈ y := (List.dropWhile_sublist formatters.isUhN).subset h1
    exact (List.mem_filter.mp h2).2
  have hmap : out.map toLowerN = out := by
    rw [List.map_congr_left (fun a ha => toLowerN_fix_of_userChar (hmem a ha))]
    exact List.map_id out
  have hfilter : out.filter formatters.isUserCharN = out :=
    filter_eq_self_of_all hmem
  have hdw : out.dropWhile formatters.isUhN = out := by
    rcases dRW_head?_or_nil formatters.isUhN (y.dropWhile formatters.isUhN) with h | h
    · rw [← hout] at h
      rw [h]
      rfl
    · rw [← hout] at h
      cases hsh : out with
      | nil => rfl
      | cons c cs =>
        rw [hsh] at h
        cases hysh : y.dropWhile formatters.isUhN with
        | nil => rw [hysh] at h; simp at h
        | cons a as =>
          rw [hysh] at h
          simp only [List.head?_cons] at h
          have hca : c = a := by injection h
          have hna : formatters.isUhN a = false := dW_head_not _ y hysh
          exact dW_of_head_false cs (hca ▸ hna)
  have hdrw : dropRightWhile formatters.isUhN out = out := by
    rw [hout]
    exact dRW_idem _ _
  rw [hmap, hfilter, hdw, hdrw]

theorem isPrefixOf_append_self : ∀ (l m : JsStr), l.isPrefixOf (l ++ m) = true := by
  intro l m
  induction l with
  | nil => simp [List.isPrefixOf]
  | cons c cs ih => simp [List.isPrefixOf, ih]

theorem dRW_append_of_ne_nil (p : Nat → Bool) :
    ∀ (a b : JsStr), dropRightWhile p b ≠ [] →
      dropRightWhile p (a ++ b) = a ++ dropRightWhile p b := by
  intro a b hb
  induction a with
  | nil => rfl
  | cons x a' ih =>
    show dropRightWhile p (x :: (a' ++ b)) = x :: (a' ++ dropRightWhile p b)
    have hcond : ((dropRightWhile p (a' ++ b)).isEmpty && p x) = false := by
      rw [ih]
      cases he : (a' ++ dropRightWhile p b).isEmpty with
      | true =>
        rw [List.isEmpty_iff, List.append_eq_nil] at he
        exact absurd he.2 hb
      | false => simp
    rw [dRW_cons_false hcond, ih]

theorem url_unfold (value : JsStr) :
    formatters.url value =
      (if !((jsTrim value).map toLowerN).isEmpty
          && !(S "http://").isPrefixOf ((jsTrim value).map toLowerN)
          && !(S "https://").isPrefixOf ((jsTrim value).map toLowerN)
       then S "https://" ++ (jsTrim value).map toLowerN
       else (jsTrim value).map toLowerN) := rfl

theorem url_idem (v : JsStr) :
    formatters.url (formatters.url v) = formatters.url v := by
  have httrim : jsTrim ((jsTrim v).map toLowerN) = (jsTrim v).map toLowerN :=
    spSame_jsTrim_fix (spSame_map_toLowerN (jsTrim v)) (jsTrim_idem v)
  have htlower : ((jsTrim v).map toLowerN).map toLowerN = (jsTrim v).map toLowerN := by
    rw [List.map_map]
    exact List.map_congr_left (fun a _ => toLowerN_idem a)
  by_cases hcond : (!((jsTrim v).map toLowerN).isEmpty
      && !(S "http://").isPrefixOf ((jsTrim v).map toLowerN)
      && !(S "https://").isPrefixOf ((jsTrim v).map toLowerN)) = true
  · have hout : formatters.url v = S "https://" ++ (jsTrim v).map toLowerN := by
      rw [url_unfold, if_pos hcond]
    have hne : (jsTrim v).map toLowerN ≠ [] := by
      intro hnil
      rw [Bool.and_eq_true, Bool.and_eq_true] at hcond
      rw [hnil] at hcond
      simp at hcond
    have hwtrim : jsTrim (S "https://" ++ (jsTrim v).map toLowerN)
        = S "https://" ++ (jsTrim v).map toLowerN := by
      obtain ⟨hq1, hq2⟩ := trim_fix_components _ httrim
      have hdw : (S "https://" ++ (jsTrim v).map toLowerN).dropWhile isJsSpaceN
          = S "https://" ++ (jsTrim v).map toLowerN := by
        show (104 :: (S "ttps://" ++ (jsTrim v).map toLowerN)).dropWhile isJsSpaceN = _
        exact dW_of_head_false _ (by decide)
      have hdrw : dropRightWhile isJsSpaceN (S "https://" ++ (jsTrim v).map toLowerN)
          = S "https://" ++ (jsTrim v).map toLowerN := by
        rw [dRW_append_of_ne_nil isJsSpaceN (S "https://") _ (by rw [hq2]; exact hne),
          hq2]
      show dropRightWhile isJsSpaceN
          ((S "https://" ++ (jsTrim v).map toLowerN).dropWhile isJsSpaceN) = _
      rw [hdw, hdrw]
    have hwlower : (S "https://" ++ (jsTrim v).map toLowerN).map toLowerN
        = S "https://" ++ (jsTrim v).map toLowerN := by
      rw [List.map_append, htlower]
      rfl
    have hwpre : (S "https://").isPrefixOf (S "https://" ++ (jsTrim v).map toLowerN)
        = true := isPrefixOf_append_self _ _
    rw [hout, url_unfold, hwtrim, hwlower, hwpre]
    simp
  · have hout : formatters.url v = (jsTrim v).map toLowerN := by
      rw [url_unfold, if_neg hcond]
    rw [hout, url_unfold, httrim, htlower, if_neg hcond]

/-- A string made only of digits and dots, with at most one dot and at
    most two units after it, is a fixed point of the currency formatter. -/
theorem currency_fixed_of_shape (w : JsStr)
    (hkeep : ∀ c ∈ w, formatters.keepDigitDot c = true)
    (hdot : w.count 46 ≤ 1) (hfrac : fracLen w ≤ 2) :
    formatters.currency w = w := by
  have hclean : w.filter formatters.keepDigitDot = w := filter_eq_self_of_all hkeep
  show (if 2 < (formatters.splitDots (w.filter formatters.keepDigitDot)).length then
        (formatters.splitDots (w.filter formatters.keepDigitDot)).headD []
          ++ 46 :: ((formatters.splitDots (w.filter formatters.keepDigitDot)).drop 1).flatten
      else match formatters.splitDots (w.filter formatters.keepDigitDot) with
        | [a, b] => if 2 < b.length then a ++ 46 :: b.take 2
            else w.filter formatters.keepDigitDot
        | _ => w.filter formatters.keepDigitDot) = w
  rw [hclean]
  have hlen := length_splitDots w
  have hnotbig : ¬ 2 < (formatters.splitDots w).length := by omega
  rw [if_neg hnotbig]
  cases hs : formatters.splitDots w with
  | nil => exact absurd hs (splitDots_ne_nil w)
  | cons a rest =>
    cases rest with
    | nil => rfl
    | cons b rest2 =>
      cases rest2 with
      | cons c rest3 =>
        exfalso
        rw [hs] at hnotbig
        simp only [List.length_cons] at hnotbig
        omega
      | nil =>
        have hjoin := joinDots_splitDots w
        rw [hs] at hjoin
        have hw : a ++ 46 :: b = w := hjoin
        have hnd : 46 ∉ a := splitDots_no_dot w a (hs ▸ List.mem_cons_self a [b])
        have hb : fracLen w = b.length := by
          rw [← hw]
          exact fracLen_append_dot a b hnd
        show (if 2 < b.length then a ++ 46 :: b.take 2 else w) = w
        rw [if_neg (by omega)]

/-- C9: For every field type `t` and every already-canonical input
`x` (an output of `autoFormat` for type `t`), `autoFormat` is idempotent:
`autoFormat(autoFormat(x, t), t) = autoFormat(x, t)`.  For every type
other than currency the formatter is idempotent on all inputs; for
currency, every canonical input is mapped to a fixed point (at most one
dot, at most two fractional digits), so a further application is the
identity there. -/
theorem autoFormat_idempotent_on_canonical (t : FieldType) (x y : JsStr)
    (hx : x = formatters.auto y t) :
    formatters.auto (formatters.auto x t) t = formatters.auto x t := by
  subst hx
  cases t with
  | text => exact text_idem _
  | email => exact email_idem _
  | phone => exact phone_idem _
  | personName => exact personName_idem _
  | businessName => exact businessName_idem _
  | streetAddress => exact streetAddress_idem _
  | creditCard => exact creditCard_idem _
  | username => exact username_idem _
  | url => exact url_idem _
  | number => exact number_idem _
  | password => exact text_idem _
  | date => exact text_idem _
  | otp => exact text_idem _
  | currency =>
    show formatters.currency (formatters.currency (formatters.currency y))
        = formatters.currency (formatters.currency y)
    obtain ⟨hk, hd, hfr⟩ := currency_output_shape (formatters.currency y)
    obtain ⟨_, hdy, _⟩ := currency_output_shape y
    exact currency_fixed_of_shape (formatters.currency (formatters.currency y))
      hk hd (hfr hdy)

/-- Witness for C9: `"John Doe"` is canonical for personName (it formats
to itself) and re-formatting leaves it unchanged. -/
theorem autoFormat_idempotent_witness :
    formatters.auto (formatters.auto (S "John Doe") FieldType.personName)
        FieldType.personName
      = formatters.auto (S "John Doe") FieldType.personName :=
  autoFormat_idempotent_on_canonical FieldType.personName (S "John Doe")
    (S "John Doe") (by decide)

end FnForms
